import Mathlib

/-!
Shallow embedding of `logic_add.py`: a discrete-event simulator of
combinational logic built on the observer pattern.  Wires are identified by
allocation order (`Nat` ids); the mutable object graph of the Python program
is modelled as an explicit state `CState` holding every wire's value
(`none` = attribute not yet set), every wire's observer list, and the single
`Converter`'s `result`/`sign` attributes.  Python's synchronous, depth-first
notification cascade (`Wire.set` → `notify_observers` → `update` → nested
`Wire.set`) is embedded as mutually recursive functions bounded by explicit
fuel; returning the flag `false` models an exception / non-completion, and
the state component returned alongside it is the object state at that point.
Python's arbitrary-precision integers are `Int`; `n & 1`, `n | m`, `n ^ m`,
`n >> 1`, `n << 1` are `Int.land`, `Int.lor`, `Int.xor`, `· >>> 1` and
`· <<< 1`, all of which share Python's two's-complement (arithmetic,
sign-extending) semantics on negative numbers.
-/

namespace LogicAdd

/-- The three gate classes `AndGate`, `OrGate`, `XorGate` of the source,
distinguished only by their `operation` method. -/
inductive GateOp where
  | andOp : GateOp
  | orOp : GateOp
  | xorOp : GateOp
deriving DecidableEq

/-- The `operation` method: `x & y`, `x | y`, `x ^ y` on Python ints. -/
def GateOp.operation : GateOp → Int → Int → Int
  | .andOp, x, y => Int.land x y
  | .orOp, x, y => Int.lor x y
  | .xorOp, x, y => Int.xor x y

/-- A `DoubleInputGate` instance: its class (operation) and the ids of its
two input wires and its output wire. -/
structure Gate where
  op : GateOp
  input1 : Nat
  input2 : Nat
  output : Nat
deriving DecidableEq

/-- An entry of a wire's observer list: either a gate (registered by
`DoubleInputGate.__init__`) or the converter (registered by
`Converter.__init__`, remembering its `outputs` list). -/
inductive Obs where
  | gate (g : Gate)
  | converter (outputs : List Nat)
deriving DecidableEq

/-- The whole mutable object state of one evaluation: how many wires have
been allocated, each wire's `value` attribute (`none` while unset), each
wire's observer list, and the converter's `result`/`sign` attributes
(`none` while unset). -/
structure CState where
  nWires : Nat
  values : Nat → Option Int
  obs : Nat → List Obs
  result : Option Int
  sign : Option Int

/-- The state before any object is created. -/
def initState : CState :=
  { nWires := 0, values := fun _ => none, obs := fun _ => [], result := none, sign := none }

/-- `Wire()`: allocate a fresh wire (unset, no observers) and return its id. -/
def newWire (st : CState) : Nat × CState :=
  (st.nWires, { st with nWires := st.nWires + 1 })

/-- `add_observer`: append an observer to a wire's observer list. -/
def addObserver (st : CState) (w : Nat) (o : Obs) : CState :=
  { st with obs := Function.update st.obs w (st.obs w ++ [o]) }

/-- `to_binary(n, num_bits)` of the source: repeatedly take `n & 1` and
shift `n` right (arithmetically) until `num_bits` bits are collected,
least significant first. -/
def to_binary (n : Int) (num_bits : Nat) : List Int :=
  match num_bits with
  | 0 => []
  | k + 1 => Int.land n 1 :: to_binary (n >>> (1 : Nat)) k

/-- `from_binary(lst)` of the source: fold over the reversed list with
`result = (result << 1) | d`. -/
def from_binary (lst : List Int) : Int :=
  lst.reverse.foldl (fun result d => Int.lor (result <<< (1 : Int)) d) 0

/-- Fuel bound for the embedded notification cascade.  The cascade of the
Python program is plain (unbounded) recursion; the theorems below show this
bound is never reached on the program's executions. -/
def cascadeFuel : Nat := 9

mutual

/-- `Wire.set`: assert the value is a bit, record it, then notify the
observers in order.  The `Bool` is `false` when an assertion failed or fuel
ran out; the returned state is the object state at that point. -/
def setWire : Nat → CState → Nat → Int → CState × Bool
  | 0, st, _, _ => (st, false)
  | fuel + 1, st, w, v =>
    if v = 0 ∨ v = 1 then
      let st1 : CState := { st with values := Function.update st.values w (some v) }
      notifyList fuel st1 (st1.obs w)
    else (st, false)
termination_by fuel _ _ _ => (fuel, 0, 0)

/-- `Observable.notify_observers`: call `update` on each observer in
subscription order, aborting the iteration if one raises. -/
def notifyList : Nat → CState → List Obs → CState × Bool
  | _, st, [] => (st, true)
  | fuel, st, o :: rest =>
    match updateObs fuel st o with
    | (st', false) => (st', false)
    | (st', true) => notifyList fuel st' rest
termination_by fuel _ os => (fuel, 1, os.length)

/-- The `update` methods.  A gate sets its output iff both inputs are set;
the converter records `result` and `sign` iff all its output wires are set. -/
def updateObs : Nat → CState → Obs → CState × Bool
  | fuel, st, .gate g =>
    match st.values g.input1, st.values g.input2 with
    | some x, some y => setWire fuel st g.output (g.op.operation x y)
    | _, _ => (st, true)
  | _, st, .converter outputs =>
    if outputs.all (fun ow => (st.values ow).isSome) then
      let binary_list := outputs.map (fun ow => (st.values ow).getD 0)
      ({ st with result := some (from_binary binary_list),
                 sign := some (binary_list.getLastD 0) }, true)
    else (st, true)
termination_by fuel _ _ => (fuel, 0, 1)

end

/-- `HalfAdder.__init__`: an XOR gate for the sum and an AND gate for the
carry, sharing the two inputs; `DoubleInputGate.__init__` registers each
gate on `input1` then on `input2`. -/
def HalfAdder.init (input1 input2 output carry_out : Nat) (st : CState) : CState :=
  let gx : Obs := .gate ⟨.xorOp, input1, input2, output⟩
  let ga : Obs := .gate ⟨.andOp, input1, input2, carry_out⟩
  let st := addObserver (addObserver st input1 gx) input2 gx
  addObserver (addObserver st input1 ga) input2 ga

/-- `FullAdder.__init__`: three internal wires, two half adders and an OR
gate, in construction order. -/
def FullAdder.init (input1 input2 carry_in output carry_out : Nat) (st : CState) : CState :=
  let (wire1, st) := newWire st
  let (wire2, st) := newWire st
  let (wire3, st) := newWire st
  let st := HalfAdder.init input1 input2 wire1 wire2 st
  let st := HalfAdder.init carry_in wire1 output wire3 st
  let go : Obs := .gate ⟨.orOp, wire3, wire2, carry_out⟩
  addObserver (addObserver st wire3 go) wire2 go

/-- The `for i in range(n)` loop of `build_circuit`, threading the carry
and appending to the three wire lists. -/
def buildLoop : Nat → CState → Nat → List Nat → List Nat → List Nat →
    CState × List Nat × List Nat × List Nat
  | 0, st, _, inputs1, inputs2, outputs => (st, inputs1, inputs2, outputs)
  | k + 1, st, previous_carry, inputs1, inputs2, outputs =>
    let (i1, st) := newWire st
    let (i2, st) := newWire st
    let (o, st) := newWire st
    let (new_carry, st) := newWire st
    let st := FullAdder.init i1 i2 previous_carry o new_carry st
    buildLoop k st new_carry (inputs1 ++ [i1]) (inputs2 ++ [i2]) (outputs ++ [o])

/-- `build_circuit(n)`: allocate the first carry, set it to 0 (it has no
observers yet), then build the `n` full adders.  The flag records whether
the initial `set` completed. -/
def build_circuit (n : Nat) : (CState × List Nat × List Nat × List Nat) × Bool :=
  let (first_carry, st) := newWire initState
  let (st, ok) := setWire cascadeFuel st first_carry 0
  (buildLoop n st first_carry [] [] [], ok)

/-- `Converter.__init__`: register the converter on each output wire in
order. -/
def Converter.init (outputs : List Nat) (st : CState) : CState :=
  outputs.foldl (fun st w => addObserver st w (.converter outputs)) st

/-- `Wire.get_value` / the `value` property: raises (here `.none`) while the
`value` attribute does not exist. -/
def Wire.getValue (st : CState) (w : Nat) : Option Int :=
  st.values w

/-- `Converter.get_result` / the `result` property: raises (here `.none`)
while the attribute does not exist. -/
def Converter.getResult (st : CState) : Option Int :=
  st.result

/-- `Converter.get_sign` / the `sign` property. -/
def Converter.getSign (st : CState) : Option Int :=
  st.sign

/-- The input-driving loop of `add`: for each `zip`ped quadruple, set the
first operand's wire then the second operand's wire. -/
def driveAll : Nat → CState → List (Nat × Nat × Int × Int) → CState × Bool
  | _, st, [] => (st, true)
  | fuel, st, (input1, input2, dig1, dig2) :: rest =>
    match setWire fuel st input1 dig1 with
    | (st, false) => (st, false)
    | (st, true) =>
      match setWire fuel st input2 dig2 with
      | (st, false) => (st, false)
      | (st, true) => driveAll fuel st rest

/-- `add(a, b, num_bits)`: build the circuit, attach a converter, drive the
encoded operands pairwise, then read `sign` and `result` and decode the
two's-complement answer.  `none` models any raised exception. -/
def add (a b : Int) (num_bits : Nat := 32) : Option Int :=
  let (circ, ok) := build_circuit num_bits
  let (st, inputs1, inputs2, outputs) := circ
  if ok then
    let st := Converter.init outputs st
    let quads := inputs1.zip (inputs2.zip ((to_binary a num_bits).zip (to_binary b num_bits)))
    match driveAll cascadeFuel st quads with
    | (st, true) =>
      match Converter.getSign st with
      | none => none
      | some s =>
        match Converter.getResult st with
        | none => none
        | some r => some (if s = 1 then -(2 ^ num_bits - r) else r)
    | (_, false) => none
  else none

/-! ### Arithmetic facts about the bit-level primitives -/

/-- Auxiliary: `Nat.ldiff 1 m` keeps only the low bit of the complement. -/
lemma ldiff_one_eq (m : Nat) : Nat.ldiff 1 m = if m % 2 = 0 then 1 else 0 := by
  apply Nat.eq_of_testBit_eq
  intro i
  rw [Nat.testBit_ldiff]
  cases i with
  | zero =>
    rcases Nat.mod_two_eq_zero_or_one m with h | h <;>
      simp [Nat.testBit_zero, h]
  | succ i =>
    have h2 : (1 : Nat) / 2 = 0 := by norm_num
    rcases Nat.mod_two_eq_zero_or_one m with h | h <;>
      simp [Nat.testBit_succ, h, h2]

/-- Python's `n & 1` on an arbitrary int is `n mod 2`. -/
lemma land_one (n : Int) : Int.land n 1 = n % 2 := by
  cases n with
  | ofNat m =>
    have h : Int.land (Int.ofNat m) 1 = Int.ofNat (m &&& 1) := rfl
    rw [h, Nat.and_one_is_mod]
    have h2 : Int.ofNat (m % 2) = (((m % 2 : Nat)) : ℤ) := rfl
    have h3 : Int.ofNat m = ((m : Nat) : ℤ) := rfl
    rw [h2, h3]
    omega
  | negSucc m =>
    have h : Int.land (Int.negSucc m) 1 = Int.ofNat (Nat.ldiff 1 m) := rfl
    rw [h, ldiff_one_eq, Int.negSucc_eq]
    have h3 : ∀ j : Nat, Int.ofNat j = ((j : Nat) : ℤ) := fun _ => rfl
    rw [h3]
    split <;> omega

/-- Python's `n >> 1` (arithmetic shift) is floor division by 2, which for
`Int` coincides with Euclidean division by the positive constant 2. -/
lemma shiftRight_one (n : Int) : n >>> (1 : Nat) = n / 2 := by
  simpa using Int.shiftRight_eq_div_pow n 1

/-- Dividing twice: `n / 2 / 2^i = n / 2^(i+1)`. -/
lemma ediv_two_ediv_pow (n : Int) (i : Nat) : n / 2 / 2 ^ i = n / 2 ^ (i + 1) := by
  have hp : (0 : ℤ) < 2 ^ i := by positivity
  have h1 : n / 2 = 2 ^ i * (n / 2 / 2 ^ i) + n / 2 % 2 ^ i := (Int.ediv_add_emod _ _).symm
  have h2 : n = 2 * (n / 2) + n % 2 := (Int.ediv_add_emod n 2).symm
  have hr1 : 0 ≤ n / 2 % 2 ^ i := Int.emod_nonneg _ (by positivity)
  have hr2 : n / 2 % 2 ^ i < 2 ^ i := Int.emod_lt_of_pos _ hp
  have hm0 : 0 ≤ n % 2 := Int.emod_nonneg _ (by norm_num)
  have hm1 : n % 2 < 2 := Int.emod_lt_of_pos _ (by norm_num)
  have hne : ((2 : ℤ) ^ (i + 1)) ≠ 0 := by positivity
  have key : n = (2 * (n / 2 % 2 ^ i) + n % 2) + 2 ^ (i + 1) * (n / 2 / 2 ^ i) := by
    rw [pow_succ]
    linear_combination h2 + 2 * h1
  have hz : (2 * (n / 2 % 2 ^ i) + n % 2) / 2 ^ (i + 1) = 0 :=
    Int.ediv_eq_zero_of_lt (by omega) (by rw [pow_succ]; omega)
  calc n / 2 / 2 ^ i
      = (0 : ℤ) + n / 2 / 2 ^ i := by ring
    _ = (2 * (n / 2 % 2 ^ i) + n % 2) / 2 ^ (i + 1) + n / 2 / 2 ^ i := by rw [hz]
    _ = ((2 * (n / 2 % 2 ^ i) + n % 2) + 2 ^ (i + 1) * (n / 2 / 2 ^ i)) / 2 ^ (i + 1) := by
        rw [Int.add_mul_ediv_left _ _ hne]
    _ = n / 2 ^ (i + 1) := by rw [← key]

/-- Peeling the top bit off an Euclidean remainder by a power of two. -/
lemma emod_pow_succ (n : Int) (k : Nat) :
    n % 2 ^ (k + 1) = n % 2 ^ k + n / 2 ^ k % 2 * 2 ^ k := by
  have hp : (0 : ℤ) < 2 ^ k := by positivity
  have h1 : n = 2 ^ k * (n / 2 ^ k) + n % 2 ^ k := (Int.ediv_add_emod _ _).symm
  have hr0 : 0 ≤ n % 2 ^ k := Int.emod_nonneg _ (by positivity)
  have hr1 : n % 2 ^ k < 2 ^ k := Int.emod_lt_of_pos _ hp
  have hd : n / 2 ^ k = 2 * (n / 2 ^ k / 2) + n / 2 ^ k % 2 := (Int.ediv_add_emod _ 2).symm
  rcases Int.emod_two_eq (n / 2 ^ k) with h | h
  · have key : n = n % 2 ^ k + 2 ^ (k + 1) * (n / 2 ^ k / 2) := by
      rw [pow_succ]
      linear_combination h1 + (2 : ℤ) ^ k * hd + (2 : ℤ) ^ k * h
    have hmod : n % 2 ^ (k + 1) = n % 2 ^ k := by
      calc n % 2 ^ (k + 1)
          = (n % 2 ^ k + 2 ^ (k + 1) * (n / 2 ^ k / 2)) % 2 ^ (k + 1) := by rw [← key]
        _ = n % 2 ^ k % 2 ^ (k + 1) := Int.add_mul_emod_self_left _ _ _
        _ = n % 2 ^ k := Int.emod_eq_of_lt hr0 (by rw [pow_succ]; omega)
    rw [hmod, h]
    ring
  · have key : n = (n % 2 ^ k + 2 ^ k) + 2 ^ (k + 1) * (n / 2 ^ k / 2) := by
      rw [pow_succ]
      linear_combination h1 + (2 : ℤ) ^ k * hd + (2 : ℤ) ^ k * h
    have hmod : n % 2 ^ (k + 1) = n % 2 ^ k + 2 ^ k := by
      calc n % 2 ^ (k + 1)
          = ((n % 2 ^ k + 2 ^ k) + 2 ^ (k + 1) * (n / 2 ^ k / 2)) % 2 ^ (k + 1) := by
            rw [← key]
        _ = (n % 2 ^ k + 2 ^ k) % 2 ^ (k + 1) := Int.add_mul_emod_self_left _ _ _
        _ = n % 2 ^ k + 2 ^ k := Int.emod_eq_of_lt (by omega) (by rw [pow_succ]; omega)
    rw [hmod, h]
    ring

/-- Bit `i` of the two's-complement representation of `x`. -/
def ibit (x : Int) (i : Nat) : Int := x / 2 ^ i % 2

lemma ibit_cases (x : Int) (i : Nat) : ibit x i = 0 ∨ ibit x i = 1 :=
  Int.emod_two_eq _

lemma ibit_half (x : Int) (i : Nat) : ibit (x / 2) i = ibit x (i + 1) := by
  unfold ibit
  rw [ediv_two_ediv_pow]

/-- `to_binary` lists the two's-complement bits, least significant first. -/
lemma to_binary_eq_map (n : Int) (k : Nat) :
    to_binary n k = (List.range k).map (ibit n) := by
  induction k generalizing n with
  | zero => rfl
  | succ k ih =>
    rw [to_binary, land_one, shiftRight_one, ih, List.range_succ_eq_map,
      List.map_cons, List.map_map]
    have h0 : ibit n 0 = n % 2 := by simp [ibit]
    rw [← h0]
    congr 1
    apply List.map_congr_left
    intro i _
    simp only [Function.comp_apply]
    exact ibit_half n i

lemma to_binary_length (n : Int) (k : Nat) : (to_binary n k).length = k := by
  rw [to_binary_eq_map]
  simp

lemma to_binary_getD (n : Int) {i k : Nat} (h : i < k) :
    (to_binary n k).getD i 0 = ibit n i := by
  rw [to_binary_eq_map, List.getD_eq_getElem?_getD, List.getElem?_map,
    List.getElem?_range h]
  rfl

/-- The little-endian value of the first `k` two's-complement bits of `n`
is `n mod 2^k`. -/
lemma sum_ibit (n : Int) (k : Nat) :
    (∑ i ∈ Finset.range k, ibit n i * 2 ^ i) = n % 2 ^ k := by
  induction k with
  | zero => simp
  | succ k ih =>
    rw [Finset.sum_range_succ, ih, emod_pow_succ]
    rfl

/-- `from_binary` as a fold from the most significant end. -/
lemma from_binary_eq_foldr (l : List Int) :
    from_binary l = l.foldr (fun d r => Int.lor (r <<< (1 : Int)) d) 0 := by
  unfold from_binary
  rw [List.foldl_reverse]

/-- Setting the low bit of an even natural number. -/
lemma nat_two_mul_lor_one (m : Nat) : (2 * m) ||| 1 = 2 * m + 1 := by
  apply Nat.eq_of_testBit_eq
  intro i
  rw [Nat.testBit_lor]
  cases i with
  | zero =>
    have h1 : (2 * m) % 2 = 0 := by omega
    have h2 : (2 * m + 1) % 2 = 1 := by omega
    simp [Nat.testBit_zero, h1, h2]
  | succ i =>
    have h1 : 2 * m / 2 = m := by omega
    have h2 : (2 * m + 1) / 2 = m := by omega
    have h3 : (1 : Nat) / 2 = 0 := by norm_num
    simp [Nat.testBit_succ, h1, h2, h3]

/-- One step of `from_binary` on a nonnegative accumulator and a bit:
`(r << 1) | d = 2*r + d`. -/
lemma lor_double_bit (r d : Int) (hr : 0 ≤ r) (hd : d = 0 ∨ d = 1) :
    Int.lor (r <<< (1 : Int)) d = 2 * r + d := by
  obtain ⟨m, rfl⟩ := Int.eq_ofNat_of_zero_le hr
  have hsh : ((m : ℤ)) <<< (1 : Int) = ((m <<< 1 : Nat) : ℤ) := Int.shiftLeft_coe_nat m 1
  have hm : (m <<< 1) = 2 * m := by rw [Nat.shiftLeft_eq]; ring
  rcases hd with rfl | rfl
  · have h0 : Int.lor ((2 * m : Nat) : ℤ) 0 = (((2 * m) ||| 0 : Nat) : ℤ) := rfl
    rw [hsh, hm, h0, Nat.or_zero]
    push_cast
    ring
  · have h0 : Int.lor ((2 * m : Nat) : ℤ) 1 = (((2 * m) ||| 1 : Nat) : ℤ) := rfl
    rw [hsh, hm, h0, nat_two_mul_lor_one]
    push_cast
    ring

/-- Value, nonnegativity and range of `from_binary` on a list of bits. -/
lemma from_binary_spec (l : List Int) (hl : ∀ b ∈ l, b = 0 ∨ b = 1) :
    from_binary l = (∑ i ∈ Finset.range l.length, l.getD i 0 * 2 ^ i) ∧
    0 ≤ from_binary l ∧ from_binary l < 2 ^ l.length := by
  induction l with
  | nil => simp [from_binary]
  | cons d l ih =>
    have hd := hl d (by simp)
    have hl' : ∀ b ∈ l, b = 0 ∨ b = 1 := fun b hb => hl b (by simp [hb])
    obtain ⟨hsum, h0, h1⟩ := ih hl'
    have hcons : from_binary (d :: l) = 2 * from_binary l + d := by
      rw [from_binary_eq_foldr, List.foldr_cons, ← from_binary_eq_foldr]
      exact lor_double_bit _ _ h0 hd
    have hlen : (d :: l).length = l.length + 1 := rfl
    refine ⟨?_, ?_, ?_⟩
    · rw [hcons, hlen, Finset.sum_range_succ']
      have hpeel : ∀ i, (d :: l).getD (i + 1) 0 = l.getD i 0 := fun i => rfl
      have hhead : (d :: l).getD 0 0 = d := rfl
      calc 2 * from_binary l + d
          = (∑ i ∈ Finset.range l.length, l.getD i 0 * 2 ^ i) * 2 + d := by
            rw [hsum]; ring
        _ = (∑ i ∈ Finset.range l.length, l.getD i 0 * 2 ^ (i + 1)) + d := by
            rw [Finset.sum_mul]
            congr 1
            apply Finset.sum_congr rfl
            intro i _
            rw [pow_succ]
            ring
        _ = (∑ i ∈ Finset.range l.length, (d :: l).getD (i + 1) 0 * 2 ^ (i + 1)) +
              (d :: l).getD 0 0 * 2 ^ 0 := by
            simp [hpeel, hhead]
    · rcases hd with rfl | rfl <;> omega
    · rw [hcons, hlen, pow_succ]
      rcases hd with rfl | rfl <;> omega

/-! ### Claim C2: `to_binary` encodes `n mod 2^num_bits` in `num_bits` bits -/

/-- C2.  For every integer `n` (negative included) and every `num_bits ≥ 0`,
`to_binary n num_bits` has exactly `num_bits` elements, each 0 or 1, least
significant first, and its little-endian value `Σ bit_i · 2^i` is
`n mod 2^num_bits` (the representative in `[0, 2^num_bits)`). -/
theorem to_binary_encodes_mod (n : Int) (num_bits : Nat) :
    (to_binary n num_bits).length = num_bits ∧
    (∀ b ∈ to_binary n num_bits, b = 0 ∨ b = 1) ∧
    (∑ i ∈ Finset.range num_bits, (to_binary n num_bits).getD i 0 * 2 ^ i) =
      n % 2 ^ num_bits := by
  refine ⟨to_binary_length n num_bits, ?_, ?_⟩
  · intro b hb
    rw [to_binary_eq_map] at hb
    obtain ⟨i, _, rfl⟩ := List.mem_map.mp hb
    exact ibit_cases n i
  · rw [← sum_ibit n num_bits]
    apply Finset.sum_congr rfl
    intro i hi
    rw [to_binary_getD n (Finset.mem_range.mp hi)]

/-! ### Claim C3: decode is a left inverse of encode on fitting values -/

/-- C3.  For every non-negative `v` that fits in `num_bits` bits,
`from_binary (to_binary v num_bits) = v`. -/
theorem from_binary_to_binary (v : Int) (num_bits : Nat) (h0 : 0 ≤ v)
    (h1 : v < 2 ^ num_bits) : from_binary (to_binary v num_bits) = v := by
  obtain ⟨hlen, hbits, hsum⟩ := to_binary_encodes_mod v num_bits
  obtain ⟨hval, -, -⟩ := from_binary_spec (to_binary v num_bits) hbits
  rw [hval, hlen, hsum, Int.emod_eq_of_lt h0 h1]

/-- Witness for C3 at `v = 5`, `num_bits = 3`. -/
theorem from_binary_to_binary_witness :
    (0 : ℤ) ≤ 5 ∧ (5 : ℤ) < 2 ^ 3 ∧ from_binary (to_binary 5 3) = 5 :=
  ⟨by norm_num, by norm_num, from_binary_to_binary 5 3 (by norm_num) (by norm_num)⟩

/-! ### The wire layout produced by `build_circuit`

`build_circuit n` allocates wire 0 (the pre-set first carry) and then, for
each block `i < n`, seven wires in a fixed order: the two operand inputs,
the output, the carry-out, and the full adder's three internal wires. -/

/-- Wire id of `inputs1[i]`. -/
def in1W (i : Nat) : Nat := 7 * i + 1

/-- Wire id of `inputs2[i]`. -/
def in2W (i : Nat) : Nat := 7 * i + 2

/-- Wire id of `outputs[i]`. -/
def outW (i : Nat) : Nat := 7 * i + 3

/-- Wire id of block `i`'s `new_carry`. -/
def carryW (i : Nat) : Nat := 7 * i + 4

/-- Wire id of block `i`'s internal `wire1` (xor of the inputs). -/
def w1W (i : Nat) : Nat := 7 * i + 5

/-- Wire id of block `i`'s internal `wire2` (and of the inputs). -/
def w2W (i : Nat) : Nat := 7 * i + 6

/-- Wire id of block `i`'s internal `wire3` (and of carry-in and `wire1`). -/
def w3W (i : Nat) : Nat := 7 * i + 7

/-- Wire id of block `i`'s carry-in: wire 0 for block 0, block `i-1`'s
carry-out otherwise. -/
def cinW : Nat → Nat
  | 0 => 0
  | i + 1 => carryW i

lemma cinW_eq (i : Nat) : cinW i = if i = 0 then 0 else 7 * i - 3 := by
  cases i with
  | zero => rfl
  | succ i => simp [cinW, carryW]; omega

/-- The first half adder's XOR gate of block `i`. -/
def xor1G (i : Nat) : Obs := .gate ⟨.xorOp, in1W i, in2W i, w1W i⟩

/-- The first half adder's AND gate of block `i`. -/
def and1G (i : Nat) : Obs := .gate ⟨.andOp, in1W i, in2W i, w2W i⟩

/-- The second half adder's XOR gate of block `i`. -/
def xor2G (i : Nat) : Obs := .gate ⟨.xorOp, cinW i, w1W i, outW i⟩

/-- The second half adder's AND gate of block `i`. -/
def and2G (i : Nat) : Obs := .gate ⟨.andOp, cinW i, w1W i, w3W i⟩

/-- The OR gate of block `i`, producing the carry-out. -/
def orG (i : Nat) : Obs := .gate ⟨.orOp, w3W i, w2W i, carryW i⟩

/-- `add_observer` at the level of observer maps. -/
def addObs (f : Nat → List Obs) (w : Nat) (o : Obs) : Nat → List Obs :=
  Function.update f w (f w ++ [o])

/-- The observer map after `build_circuit` has built `n` blocks, block by
block, mirroring the registration order of `FullAdder.__init__`. -/
def builtObs : Nat → Nat → List Obs
  | 0 => fun _ => []
  | n + 1 =>
    let f := builtObs n
    let f := addObs (addObs f (in1W n) (xor1G n)) (in2W n) (xor1G n)
    let f := addObs (addObs f (in1W n) (and1G n)) (in2W n) (and1G n)
    let f := addObs (addObs f (cinW n) (xor2G n)) (w1W n) (xor2G n)
    let f := addObs (addObs f (cinW n) (and2G n)) (w1W n) (and2G n)
    addObs (addObs f (w3W n) (orG n)) (w2W n) (orG n)

lemma addObs_ne (f : Nat → List Obs) (w : Nat) (o : Obs) {x : Nat} (h : x ≠ w) :
    addObs f w o x = f x := by
  simp [addObs, Function.update_apply, h]

lemma addObs_eq (f : Nat → List Obs) (w : Nat) (o : Obs) :
    addObs f w o w = f w ++ [o] := by
  simp [addObs]

/-- Wires not yet allocated after `n` blocks have no observers. -/
lemma builtObs_high (n : Nat) : ∀ w, 7 * n + 1 ≤ w → builtObs n w = [] := by
  induction n with
  | zero => intro w _; rfl
  | succ n ih =>
    intro w hw
    have h1 : w ≠ w2W n := by simp [w2W]; omega
    have h2 : w ≠ w3W n := by simp [w3W]; omega
    have h3 : w ≠ w1W n := by simp [w1W]; omega
    have h4 : w ≠ cinW n := by rw [cinW_eq]; split <;> omega
    have h5 : w ≠ in2W n := by simp [in2W]; omega
    have h6 : w ≠ in1W n := by simp [in1W]; omega
    rw [builtObs]
    rw [addObs_ne _ _ _ h1, addObs_ne _ _ _ h2, addObs_ne _ _ _ h3,
      addObs_ne _ _ _ h4, addObs_ne _ _ _ h3, addObs_ne _ _ _ h4,
      addObs_ne _ _ _ h5, addObs_ne _ _ _ h6, addObs_ne _ _ _ h5,
      addObs_ne _ _ _ h6]
    exact ih w (by omega)

/-- The carry wire of block `n-1` (block `n`'s carry-in) has no observers
before block `n` is built. -/
lemma builtObs_cin_self (n : Nat) : builtObs n (cinW n) = [] := by
  cases n with
  | zero => rfl
  | succ m =>
    have hc : cinW (m + 1) = carryW m := rfl
    have h1 : carryW m ≠ w2W m := by simp only [carryW, w2W]; omega
    have h2 : carryW m ≠ w3W m := by simp only [carryW, w3W]; omega
    have h3 : carryW m ≠ w1W m := by simp only [carryW, w1W]; omega
    have h4 : carryW m ≠ cinW m := by simp only [carryW]; rw [cinW_eq]; split <;> omega
    have h5 : carryW m ≠ in2W m := by simp only [carryW, in2W]; omega
    have h6 : carryW m ≠ in1W m := by simp only [carryW, in1W]; omega
    rw [hc, builtObs]
    rw [addObs_ne _ _ _ h1, addObs_ne _ _ _ h2, addObs_ne _ _ _ h3,
      addObs_ne _ _ _ h4, addObs_ne _ _ _ h3, addObs_ne _ _ _ h4,
      addObs_ne _ _ _ h5, addObs_ne _ _ _ h6, addObs_ne _ _ _ h5,
      addObs_ne _ _ _ h6]
    exact builtObs_high m _ (by simp only [carryW]; omega)

lemma builtObs_in1 (n : Nat) : ∀ i, i < n → builtObs n (in1W i) = [xor1G i, and1G i] := by
  induction n with
  | zero => intro i hi; omega
  | succ n ih =>
    intro i hi
    rcases Nat.lt_succ_iff_lt_or_eq.mp hi with hi' | rfl
    · have h1 : in1W i ≠ w2W n := by simp only [in1W, w2W]; omega
      have h2 : in1W i ≠ w3W n := by simp only [in1W, w3W]; omega
      have h3 : in1W i ≠ w1W n := by simp only [in1W, w1W]; omega
      have h4 : in1W i ≠ cinW n := by simp only [in1W]; rw [cinW_eq]; split <;> omega
      have h5 : in1W i ≠ in2W n := by simp only [in1W, in2W]; omega
      have h6 : in1W i ≠ in1W n := by simp only [in1W]; omega
      rw [builtObs]
      rw [addObs_ne _ _ _ h1, addObs_ne _ _ _ h2, addObs_ne _ _ _ h3,
        addObs_ne _ _ _ h4, addObs_ne _ _ _ h3, addObs_ne _ _ _ h4,
        addObs_ne _ _ _ h5, addObs_ne _ _ _ h6, addObs_ne _ _ _ h5,
        addObs_ne _ _ _ h6]
      exact ih i hi'
    · have h1 : in1W i ≠ w2W i := by simp only [in1W, w2W]; omega
      have h2 : in1W i ≠ w3W i := by simp only [in1W, w3W]; omega
      have h3 : in1W i ≠ w1W i := by simp only [in1W, w1W]; omega
      have h4 : in1W i ≠ cinW i := by simp only [in1W]; rw [cinW_eq]; split <;> omega
      have h5 : in1W i ≠ in2W i := by simp only [in1W, in2W]; omega
      rw [builtObs]
      rw [addObs_ne _ _ _ h1, addObs_ne _ _ _ h2, addObs_ne _ _ _ h3,
        addObs_ne _ _ _ h4, addObs_ne _ _ _ h3, addObs_ne _ _ _ h4,
        addObs_ne _ _ _ h5, addObs_eq, addObs_ne _ _ _ h5, addObs_eq]
      rw [builtObs_high i _ (by simp only [in1W]; omega)]
      rfl

lemma builtObs_in2 (n : Nat) : ∀ i, i < n → builtObs n (in2W i) = [xor1G i, and1G i] := by
  induction n with
  | zero => intro i hi; omega
  | succ n ih =>
    intro i hi
    rcases Nat.lt_succ_iff_lt_or_eq.mp hi with hi' | rfl
    · have h1 : in2W i ≠ w2W n := by simp only [in2W, w2W]; omega
      have h2 : in2W i ≠ w3W n := by simp only [in2W, w3W]; omega
      have h3 : in2W i ≠ w1W n := by simp only [in2W, w1W]; omega
      have h4 : in2W i ≠ cinW n := by simp only [in2W]; rw [cinW_eq]; split <;> omega
      have h5 : in2W i ≠ in2W n := by simp only [in2W]; omega
      have h6 : in2W i ≠ in1W n := by simp only [in2W, in1W]; omega
      rw [builtObs]
      rw [addObs_ne _ _ _ h1, addObs_ne _ _ _ h2, addObs_ne _ _ _ h3,
        addObs_ne _ _ _ h4, addObs_ne _ _ _ h3, addObs_ne _ _ _ h4,
        addObs_ne _ _ _ h5, addObs_ne _ _ _ h6, addObs_ne _ _ _ h5,
        addObs_ne _ _ _ h6]
      exact ih i hi'
    · have h1 : in2W i ≠ w2W i := by simp only [in2W, w2W]; omega
      have h2 : in2W i ≠ w3W i := by simp only [in2W, w3W]; omega
      have h3 : in2W i ≠ w1W i := by simp only [in2W, w1W]; omega
      have h4 : in2W i ≠ cinW i := by simp only [in2W]; rw [cinW_eq]; split <;> omega
      have h6 : in2W i ≠ in1W i := by simp only [in2W, in1W]; omega
      rw [builtObs]
      rw [addObs_ne _ _ _ h1, addObs_ne _ _ _ h2, addObs_ne _ _ _ h3,
        addObs_ne _ _ _ h4, addObs_ne _ _ _ h3, addObs_ne _ _ _ h4,
        addObs_eq, addObs_ne _ _ _ h6, addObs_eq, addObs_ne _ _ _ h6]
      rw [builtObs_high i _ (by simp only [in2W]; omega)]
      rfl

lemma builtObs_w1 (n : Nat) : ∀ i, i < n → builtObs n (w1W i) = [xor2G i, and2G i] := by
  induction n with
  | zero => intro i hi; omega
  | succ n ih =>
    intro i hi
    rcases Nat.lt_succ_iff_lt_or_eq.mp hi with hi' | rfl
    · have h1 : w1W i ≠ w2W n := by simp only [w1W, w2W]; omega
      have h2 : w1W i ≠ w3W n := by simp only [w1W, w3W]; omega
      have h3 : w1W i ≠ w1W n := by simp only [w1W]; omega
      have h4 : w1W i ≠ cinW n := by simp only [w1W]; rw [cinW_eq]; split <;> omega
      have h5 : w1W i ≠ in2W n := by simp only [w1W, in2W]; omega
      have h6 : w1W i ≠ in1W n := by simp only [w1W, in1W]; omega
      rw [builtObs]
      rw [addObs_ne _ _ _ h1, addObs_ne _ _ _ h2, addObs_ne _ _ _ h3,
        addObs_ne _ _ _ h4, addObs_ne _ _ _ h3, addObs_ne _ _ _ h4,
        addObs_ne _ _ _ h5, addObs_ne _ _ _ h6, addObs_ne _ _ _ h5,
        addObs_ne _ _ _ h6]
      exact ih i hi'
    · have h1 : w1W i ≠ w2W i := by simp only [w1W, w2W]; omega
      have h2 : w1W i ≠ w3W i := by simp only [w1W, w3W]; omega
      have h4 : w1W i ≠ cinW i := by simp only [w1W]; rw [cinW_eq]; split <;> omega
      have h5 : w1W i ≠ in2W i := by simp only [w1W, in2W]; omega
      have h6 : w1W i ≠ in1W i := by simp only [w1W, in1W]; omega
      rw [builtObs]
      rw [addObs_ne _ _ _ h1, addObs_ne _ _ _ h2, addObs_eq,
        addObs_ne _ _ _ h4, addObs_eq, addObs_ne _ _ _ h4,
        addObs_ne _ _ _ h5, addObs_ne _ _ _ h6, addObs_ne _ _ _ h5,
        addObs_ne _ _ _ h6]
      rw [builtObs_high i _ (by simp only [w1W]; omega)]
      rfl

lemma builtObs_w2 (n : Nat) : ∀ i, i < n → builtObs n (w2W i) = [orG i] := by
  induction n with
  | zero => intro i hi; omega
  | succ n ih =>
    intro i hi
    rcases Nat.lt_succ_iff_lt_or_eq.mp hi with hi' | rfl
    · have h1 : w2W i ≠ w2W n := by simp only [w2W]; omega
      have h2 : w2W i ≠ w3W n := by simp only [w2W, w3W]; omega
      have h3 : w2W i ≠ w1W n := by simp only [w2W, w1W]; omega
      have h4 : w2W i ≠ cinW n := by simp only [w2W]; rw [cinW_eq]; split <;> omega
      have h5 : w2W i ≠ in2W n := by simp only [w2W, in2W]; omega
      have h6 : w2W i ≠ in1W n := by simp only [w2W, in1W]; omega
      rw [builtObs]
      rw [addObs_ne _ _ _ h1, addObs_ne _ _ _ h2, addObs_ne _ _ _ h3,
        addObs_ne _ _ _ h4, addObs_ne _ _ _ h3, addObs_ne _ _ _ h4,
        addObs_ne _ _ _ h5, addObs_ne _ _ _ h6, addObs_ne _ _ _ h5,
        addObs_ne _ _ _ h6]
      exact ih i hi'
    · have h2 : w2W i ≠ w3W i := by simp only [w2W, w3W]; omega
      have h3 : w2W i ≠ w1W i := by simp only [w2W, w1W]; omega
      have h4 : w2W i ≠ cinW i := by simp only [w2W]; rw [cinW_eq]; split <;> omega
      have h5 : w2W i ≠ in2W i := by simp only [w2W, in2W]; omega
      have h6 : w2W i ≠ in1W i := by simp only [w2W, in1W]; omega
      rw [builtObs]
      rw [addObs_eq, addObs_ne _ _ _ h2, addObs_ne _ _ _ h3,
        addObs_ne _ _ _ h4, addObs_ne _ _ _ h3, addObs_ne _ _ _ h4,
        addObs_ne _ _ _ h5, addObs_ne _ _ _ h6, addObs_ne _ _ _ h5,
        addObs_ne _ _ _ h6]
      rw [builtObs_high i _ (by simp only [w2W]; omega)]
      rfl

lemma builtObs_w3 (n : Nat) : ∀ i, i < n → builtObs n (w3W i) = [orG i] := by
  induction n with
  | zero => intro i hi; omega
  | succ n ih =>
    intro i hi
    rcases Nat.lt_succ_iff_lt_or_eq.mp hi with hi' | rfl
    · have h1 : w3W i ≠ w2W n := by simp only [w3W, w2W]; omega
      have h2 : w3W i ≠ w3W n := by simp only [w3W]; omega
      have h3 : w3W i ≠ w1W n := by simp only [w3W, w1W]; omega
      have h4 : w3W i ≠ cinW n := by simp only [w3W]; rw [cinW_eq]; split <;> omega
      have h5 : w3W i ≠ in2W n := by simp only [w3W, in2W]; omega
      have h6 : w3W i ≠ in1W n := by simp only [w3W, in1W]; omega
      rw [builtObs]
      rw [addObs_ne _ _ _ h1, addObs_ne _ _ _ h2, addObs_ne _ _ _ h3,
        addObs_ne _ _ _ h4, addObs_ne _ _ _ h3, addObs_ne _ _ _ h4,
        addObs_ne _ _ _ h5, addObs_ne _ _ _ h6, addObs_ne _ _ _ h5,
        addObs_ne _ _ _ h6]
      exact ih i hi'
    · have h1 : w3W i ≠ w2W i := by simp only [w3W, w2W]; omega
      have h3 : w3W i ≠ w1W i := by simp only [w3W, w1W]; omega
      have h4 : w3W i ≠ cinW i := by simp only [w3W]; rw [cinW_eq]; split <;> omega
      have h5 : w3W i ≠ in2W i := by simp only [w3W, in2W]; omega
      have h6 : w3W i ≠ in1W i := by simp only [w3W, in1W]; omega
      rw [builtObs]
      rw [addObs_ne _ _ _ h1, addObs_eq, addObs_ne _ _ _ h3,
        addObs_ne _ _ _ h4, addObs_ne _ _ _ h3, addObs_ne _ _ _ h4,
        addObs_ne _ _ _ h5, addObs_ne _ _ _ h6, addObs_ne _ _ _ h5,
        addObs_ne _ _ _ h6]
      rw [builtObs_high i _ (by simp only [w3W]; omega)]
      rfl

lemma builtObs_out (n : Nat) : ∀ i, i < n → builtObs n (outW i) = [] := by
  induction n with
  | zero => intro i hi; omega
  | succ n ih =>
    intro i hi
    have h1 : outW i ≠ w2W n := by simp only [outW, w2W]; omega
    have h2 : outW i ≠ w3W n := by simp only [outW, w3W]; omega
    have h3 : outW i ≠ w1W n := by simp only [outW, w1W]; omega
    have h4 : outW i ≠ cinW n := by simp only [outW]; rw [cinW_eq]; split <;> omega
    have h5 : outW i ≠ in2W n := by simp only [outW, in2W]; omega
    have h6 : outW i ≠ in1W n := by simp only [outW, in1W]; omega
    rw [builtObs]
    rw [addObs_ne _ _ _ h1, addObs_ne _ _ _ h2, addObs_ne _ _ _ h3,
      addObs_ne _ _ _ h4, addObs_ne _ _ _ h3, addObs_ne _ _ _ h4,
      addObs_ne _ _ _ h5, addObs_ne _ _ _ h6, addObs_ne _ _ _ h5,
      addObs_ne _ _ _ h6]
    rcases Nat.lt_succ_iff_lt_or_eq.mp hi with hi' | rfl
    · exact ih i hi'
    · exact builtObs_high i _ (by simp only [outW]; omega)

lemma builtObs_cin (n : Nat) : ∀ i, i < n → builtObs n (cinW i) = [xor2G i, and2G i] := by
  induction n with
  | zero => intro i hi; omega
  | succ n ih =>
    intro i hi
    rcases Nat.lt_succ_iff_lt_or_eq.mp hi with hi' | rfl
    · have h1 : cinW i ≠ w2W n := by rw [cinW_eq]; simp only [w2W]; split <;> omega
      have h2 : cinW i ≠ w3W n := by rw [cinW_eq]; simp only [w3W]; split <;> omega
      have h3 : cinW i ≠ w1W n := by rw [cinW_eq]; simp only [w1W]; split <;> omega
      have h4 : cinW i ≠ cinW n := by
        rw [cinW_eq, cinW_eq]; split <;> split <;> omega
      have h5 : cinW i ≠ in2W n := by rw [cinW_eq]; simp only [in2W]; split <;> omega
      have h6 : cinW i ≠ in1W n := by rw [cinW_eq]; simp only [in1W]; split <;> omega
      rw [builtObs]
      rw [addObs_ne _ _ _ h1, addObs_ne _ _ _ h2, addObs_ne _ _ _ h3,
        addObs_ne _ _ _ h4, addObs_ne _ _ _ h3, addObs_ne _ _ _ h4,
        addObs_ne _ _ _ h5, addObs_ne _ _ _ h6, addObs_ne _ _ _ h5,
        addObs_ne _ _ _ h6]
      exact ih i hi'
    · have h1 : cinW i ≠ w2W i := by rw [cinW_eq]; simp only [w2W]; split <;> omega
      have h2 : cinW i ≠ w3W i := by rw [cinW_eq]; simp only [w3W]; split <;> omega
      have h3 : cinW i ≠ w1W i := by rw [cinW_eq]; simp only [w1W]; split <;> omega
      have h5 : cinW i ≠ in2W i := by rw [cinW_eq]; simp only [in2W]; split <;> omega
      have h6 : cinW i ≠ in1W i := by rw [cinW_eq]; simp only [in1W]; split <;> omega
      rw [builtObs]
      rw [addObs_ne _ _ _ h1, addObs_ne _ _ _ h2, addObs_ne _ _ _ h3,
        addObs_eq, addObs_ne _ _ _ h3, addObs_eq,
        addObs_ne _ _ _ h5, addObs_ne _ _ _ h6, addObs_ne _ _ _ h5,
        addObs_ne _ _ _ h6]
      rw [builtObs_cin_self i]
      rfl

/-- The value map after `build_circuit`: only the first carry (wire 0) is
set, to 0. -/
def builtValues : Nat → Option Int := Function.update (fun _ => none) 0 (some 0)

/-- The full state after `build_circuit n`. -/
def builtState (n : Nat) : CState :=
  { nWires := 7 * n + 1, values := builtValues, obs := builtObs n,
    result := none, sign := none }

set_option maxHeartbeats 2000000 in
/-- Constructing a `FullAdder` on block `i`'s wires advances the built
state by one block. -/
lemma fullAdder_init_builtState (i : Nat) :
    FullAdder.init (7 * i + 1) (7 * i + 2) (cinW i) (7 * i + 3) (7 * i + 4)
      { builtState i with nWires := 7 * i + 5 } = builtState (i + 1) := rfl

set_option maxHeartbeats 2000000 in
/-- The construction loop, started after `i` blocks, builds the remaining
`k` blocks and appends the corresponding wire ids. -/
lemma buildLoop_spec (k : Nat) :
    ∀ (i : Nat) (acc1 acc2 acc3 : List Nat),
      buildLoop k (builtState i) (cinW i) acc1 acc2 acc3 =
        (builtState (i + k),
          acc1 ++ (List.range' i k).map in1W,
          acc2 ++ (List.range' i k).map in2W,
          acc3 ++ (List.range' i k).map outW) := by
  induction k with
  | zero =>
    intro i acc1 acc2 acc3
    simp [buildLoop]
  | succ k ih =>
    intro i acc1 acc2 acc3
    have hstep : buildLoop (k + 1) (builtState i) (cinW i) acc1 acc2 acc3 =
        buildLoop k (builtState (i + 1)) (cinW (i + 1))
          (acc1 ++ [in1W i]) (acc2 ++ [in2W i]) (acc3 ++ [outW i]) := rfl
    rw [hstep, ih (i + 1)]
    have hr : List.range' i (k + 1) = i :: List.range' (i + 1) k := List.range'_succ i k 1
    have ha : i + (k + 1) = i + 1 + k := by omega
    rw [hr, ha]
    simp

/-- Characterization of `build_circuit`. -/
lemma build_circuit_eq (n : Nat) :
    build_circuit n =
      ((builtState n, (List.range n).map in1W, (List.range n).map in2W,
        (List.range n).map outW), true) := by
  have h0 : setWire cascadeFuel
      { nWires := 0 + 1, values := fun _ => none, obs := fun _ => [],
        result := none, sign := none } 0 0 = (builtState 0, true) := by
    show setWire 9 _ 0 0 = _
    rw [setWire]
    simp [notifyList, builtState, builtValues, builtObs]
  have hb := buildLoop_spec n 0 [] [] []
  rw [show cinW 0 = 0 from rfl] at hb
  unfold build_circuit
  simp only [newWire, initState]
  rw [h0]
  simp [hb, List.range_eq_range']

/-! ### Attaching the converter -/

/-- The list of output wire ids of an `n`-bit circuit. -/
def outsList (n : Nat) : List Nat := (List.range n).map outW

/-- The converter observer registered by `add`. -/
def theConv (n : Nat) : Obs := .converter (outsList n)

/-- Folding `add_observer` of a fixed observer over a list of wires appends
one copy of the observer per occurrence of each wire. -/
lemma foldl_addObserver (o : Obs) :
    ∀ (ws : List Nat) (st : CState),
      ws.foldl (fun st w => addObserver st w o) st =
        { st with obs := fun x => st.obs x ++ List.replicate (ws.count x) o } := by
  intro ws
  induction ws with
  | nil =>
    intro st
    have h : (fun x => st.obs x ++ List.replicate (List.count x []) o) = st.obs := by
      funext x
      simp
    rw [List.foldl_nil, h]
  | cons w ws ih =>
    intro st
    rw [List.foldl_cons, ih]
    have h : (fun x => (addObserver st w o).obs x ++ List.replicate (List.count x ws) o) =
        fun x => st.obs x ++ List.replicate (List.count x (w :: ws)) o := by
      funext x
      rcases eq_or_ne x w with rfl | hx
      · rw [show (addObserver st x o).obs x = st.obs x ++ [o] from by
            simp [addObserver]]
        rw [List.count_cons_self, List.replicate_succ, List.append_assoc,
          List.singleton_append]
      · rw [show (addObserver st w o).obs x = st.obs x from by
            simp [addObserver, Function.update_noteq hx]]
        rw [List.count_cons]
        simp [hx.symm]
    rw [show addObserver st w o =
        { st with obs := (addObserver st w o).obs } from rfl]
    rw [h]

/-- The state after `add` has attached the converter to an `n`-bit circuit. -/
def convState (n : Nat) : CState :=
  { nWires := 7 * n + 1, values := builtValues,
    obs := fun x => builtObs n x ++ List.replicate (List.count x (outsList n)) (theConv n),
    result := none, sign := none }

lemma converter_init_eq (n : Nat) :
    Converter.init (outsList n) (builtState n) = convState n := by
  unfold Converter.init
  rw [show Obs.converter (outsList n) = theConv n from rfl,
    foldl_addObserver (theConv n) (outsList n) (builtState n)]
  rfl

/-- A wire that is not an output wire occurs zero times in `outsList`. -/
lemma count_outsList_zero (n w : Nat) (h : w % 7 ≠ 3) :
    List.count w (outsList n) = 0 := by
  apply List.count_eq_zero_of_not_mem
  intro hmem
  obtain ⟨j, -, hj⟩ := List.mem_map.mp hmem
  apply h
  rw [← hj]
  simp only [outW]
  omega

lemma count_outsList_out (n i : Nat) (hi : i < n) :
    List.count (outW i) (outsList n) = 1 := by
  unfold outsList
  rw [List.count_map_of_injective _ outW (fun a b hab => by
    simp only [outW] at hab; omega)]
  exact List.count_eq_one_of_mem (List.nodup_range n) (List.mem_range.mpr hi)

lemma convObs_in1 (n i : Nat) (hi : i < n) :
    (convState n).obs (in1W i) = [xor1G i, and1G i] := by
  show builtObs n (in1W i) ++ _ = _
  rw [builtObs_in1 n i hi, count_outsList_zero n _ (by simp only [in1W]; omega)]
  rfl

lemma convObs_in2 (n i : Nat) (hi : i < n) :
    (convState n).obs (in2W i) = [xor1G i, and1G i] := by
  show builtObs n (in2W i) ++ _ = _
  rw [builtObs_in2 n i hi, count_outsList_zero n _ (by simp only [in2W]; omega)]
  rfl

lemma convObs_w1 (n i : Nat) (hi : i < n) :
    (convState n).obs (w1W i) = [xor2G i, and2G i] := by
  show builtObs n (w1W i) ++ _ = _
  rw [builtObs_w1 n i hi, count_outsList_zero n _ (by simp only [w1W]; omega)]
  rfl

lemma convObs_w2 (n i : Nat) (hi : i < n) :
    (convState n).obs (w2W i) = [orG i] := by
  show builtObs n (w2W i) ++ _ = _
  rw [builtObs_w2 n i hi, count_outsList_zero n _ (by simp only [w2W]; omega)]
  rfl

lemma convObs_w3 (n i : Nat) (hi : i < n) :
    (convState n).obs (w3W i) = [orG i] := by
  show builtObs n (w3W i) ++ _ = _
  rw [builtObs_w3 n i hi, count_outsList_zero n _ (by simp only [w3W]; omega)]
  rfl

lemma convObs_cin (n i : Nat) (hi : i < n) :
    (convState n).obs (cinW i) = [xor2G i, and2G i] := by
  show builtObs n (cinW i) ++ _ = _
  rw [builtObs_cin n i hi, count_outsList_zero n _ (by rw [cinW_eq]; split <;> omega)]
  rfl

lemma convObs_cin_self (n : Nat) :
    (convState n).obs (cinW n) = [] := by
  show builtObs n (cinW n) ++ _ = _
  rw [builtObs_cin_self n, count_outsList_zero n _ (by rw [cinW_eq]; split <;> omega)]
  rfl

lemma convObs_out (n i : Nat) (hi : i < n) :
    (convState n).obs (outW i) = [theConv n] := by
  show builtObs n (outW i) ++ _ = _
  rw [builtObs_out n i hi, count_outsList_out n i hi]
  rfl

/-! ### Small-step evaluation lemmas for the cascade -/

lemma setWire_ok (fuel : Nat) (st : CState) (w : Nat) (v : Int) (hv : v = 0 ∨ v = 1) :
    setWire (fuel + 1) st w v =
      notifyList fuel { st with values := Function.update st.values w (some v) }
        (st.obs w) := by
  rw [setWire, if_pos hv]

lemma setWire_bad (fuel : Nat) (st : CState) (w : Nat) (v : Int)
    (hv : ¬(v = 0 ∨ v = 1)) :
    setWire (fuel + 1) st w v = (st, false) := by
  rw [setWire, if_neg hv]

lemma notifyList_nil (fuel : Nat) (st : CState) : notifyList fuel st [] = (st, true) := by
  rw [notifyList]

lemma notifyList_cons (fuel : Nat) (st st' : CState) (o : Obs) (rest : List Obs)
    (h : updateObs fuel st o = (st', true)) :
    notifyList fuel st (o :: rest) = notifyList fuel st' rest := by
  rw [notifyList, h]

lemma updateObs_gate_fire (fuel : Nat) (st : CState) (op : GateOp) (i1 i2 o : Nat)
    (x y : Int) (h1 : st.values i1 = some x) (h2 : st.values i2 = some y) :
    updateObs fuel st (.gate ⟨op, i1, i2, o⟩) = setWire fuel st o (op.operation x y) := by
  rw [updateObs, h1, h2]

lemma updateObs_gate_skip2 (fuel : Nat) (st : CState) (op : GateOp) (i1 i2 o : Nat)
    (h2 : st.values i2 = none) :
    updateObs fuel st (.gate ⟨op, i1, i2, o⟩) = (st, true) := by
  rw [updateObs, h2]
  rcases h : st.values i1 with - | x <;> rfl

lemma updateObs_gate_skip1 (fuel : Nat) (st : CState) (op : GateOp) (i1 i2 o : Nat)
    (h1 : st.values i1 = none) :
    updateObs fuel st (.gate ⟨op, i1, i2, o⟩) = (st, true) := by
  rw [updateObs, h1]

lemma updateObs_conv_skip (fuel : Nat) (st : CState) (outs : List Nat)
    (h : outs.all (fun ow => (st.values ow).isSome) = false) :
    updateObs fuel st (.converter outs) = (st, true) := by
  rw [updateObs, h]
  rfl

lemma updateObs_conv_fire (fuel : Nat) (st : CState) (outs : List Nat)
    (h : outs.all (fun ow => (st.values ow).isSome) = true) :
    updateObs fuel st (.converter outs) =
      ({ st with
          result := some (from_binary (outs.map (fun ow => (st.values ow).getD 0))),
          sign := some ((outs.map (fun ow => (st.values ow).getD 0)).getLastD 0) },
        true) := by
  rw [updateObs, h]
  rfl

/-! ### The carry chain and the driven state -/

/-- The carry bit entering block `i`, as computed by the circuit's gates:
`carry_out = (carry_in AND (x XOR y)) OR (x AND y)`. -/
def carrySeq (a b : Int) : Nat → Int
  | 0 => 0
  | i + 1 =>
    Int.lor (Int.land (carrySeq a b i) (Int.xor (ibit a i) (ibit b i)))
      (Int.land (ibit a i) (ibit b i))

/-- The sum bit produced by block `i`: `carry_in XOR (x XOR y)` (the second
half adder's XOR has the carry as `input1`). -/
def sumBit (a b : Int) (i : Nat) : Int :=
  Int.xor (carrySeq a b i) (Int.xor (ibit a i) (ibit b i))

/-- The list of sum bits, least significant first. -/
def sumList (a b : Int) (n : Nat) : List Int := (List.range n).map (sumBit a b)

lemma land_bit {x y : Int} (hx : x = 0 ∨ x = 1) (hy : y = 0 ∨ y = 1) :
    Int.land x y = 0 ∨ Int.land x y = 1 := by
  rcases hx with rfl | rfl <;> rcases hy with rfl | rfl <;> decide

lemma lor_bit {x y : Int} (hx : x = 0 ∨ x = 1) (hy : y = 0 ∨ y = 1) :
    Int.lor x y = 0 ∨ Int.lor x y = 1 := by
  rcases hx with rfl | rfl <;> rcases hy with rfl | rfl <;> decide

lemma xor_bit {x y : Int} (hx : x = 0 ∨ x = 1) (hy : y = 0 ∨ y = 1) :
    Int.xor x y = 0 ∨ Int.xor x y = 1 := by
  rcases hx with rfl | rfl <;> rcases hy with rfl | rfl <;> decide

lemma carrySeq_bit (a b : Int) (i : Nat) : carrySeq a b i = 0 ∨ carrySeq a b i = 1 := by
  induction i with
  | zero => left; rfl
  | succ i ih =>
    exact lor_bit (land_bit ih (xor_bit (ibit_cases a i) (ibit_cases b i)))
      (land_bit (ibit_cases a i) (ibit_cases b i))

lemma sumBit_bit (a b : Int) (i : Nat) : sumBit a b i = 0 ∨ sumBit a b i = 1 :=
  xor_bit (carrySeq_bit a b i) (xor_bit (ibit_cases a i) (ibit_cases b i))

/-- The full-adder identity, bit by bit: `s_i + 2·c_{i+1} = a_i + b_i + c_i`. -/
lemma fullAdder_identity (a b : Int) (i : Nat) :
    sumBit a b i + 2 * carrySeq a b (i + 1) = ibit a i + ibit b i + carrySeq a b i := by
  simp only [sumBit, carrySeq]
  rcases ibit_cases a i with ha | ha <;> rcases ibit_cases b i with hb | hb <;>
    rcases carrySeq_bit a b i with hc | hc <;> rw [ha, hb, hc] <;> decide

/-- The wire values after the first `i` input pairs have been driven. -/
def drivenValues (a b : Int) : Nat → Nat → Option Int
  | 0 => builtValues
  | i + 1 =>
    Function.update
      (Function.update
        (Function.update
          (Function.update
            (Function.update
              (Function.update
                (Function.update (drivenValues a b i) (in1W i) (some (ibit a i)))
                (in2W i) (some (ibit b i)))
              (w1W i) (some (Int.xor (ibit a i) (ibit b i))))
            (outW i) (some (sumBit a b i)))
          (w3W i) (some (Int.land (carrySeq a b i) (Int.xor (ibit a i) (ibit b i)))))
        (w2W i) (some (Int.land (ibit a i) (ibit b i))))
      (carryW i) (some (carrySeq a b (i + 1)))

lemma dv_in1 (a b : Int) (i j : Nat) :
    drivenValues a b i (in1W j) = if j < i then some (ibit a j) else none := by
  induction i with
  | zero =>
    rw [if_neg (by omega), drivenValues, builtValues]
    rw [Function.update_noteq (show in1W j ≠ 0 by simp only [in1W]; omega)]
  | succ i ih =>
    rw [drivenValues]
    rcases eq_or_ne j i with rfl | hj
    · rw [(Function.update_noteq (show in1W j ≠ carryW j by simp only [in1W, carryW]; omega) _ _), (Function.update_noteq (show in1W j ≠ w2W j by simp only [in1W, w2W]; omega) _ _), (Function.update_noteq (show in1W j ≠ w3W j by simp only [in1W, w3W]; omega) _ _), (Function.update_noteq (show in1W j ≠ outW j by simp only [in1W, outW]; omega) _ _), (Function.update_noteq (show in1W j ≠ w1W j by simp only [in1W, w1W]; omega) _ _), (Function.update_noteq (show in1W j ≠ in2W j by simp only [in1W, in2W]; omega) _ _), Function.update_same _ _ _]
      rw [if_pos (by omega)]
    · rw [(Function.update_noteq (show in1W j ≠ carryW i by simp only [in1W, carryW]; omega) _ _), (Function.update_noteq (show in1W j ≠ w2W i by simp only [in1W, w2W]; omega) _ _), (Function.update_noteq (show in1W j ≠ w3W i by simp only [in1W, w3W]; omega) _ _), (Function.update_noteq (show in1W j ≠ outW i by simp only [in1W, outW]; omega) _ _), (Function.update_noteq (show in1W j ≠ w1W i by simp only [in1W, w1W]; omega) _ _), (Function.update_noteq (show in1W j ≠ in2W i by simp only [in1W, in2W]; omega) _ _), (Function.update_noteq (show in1W j ≠ in1W i by simp only [in1W]; omega) _ _)]
      rw [ih]
      by_cases hji : j < i
      · rw [if_pos hji, if_pos (by omega)]
      · rw [if_neg hji, if_neg (by omega)]

lemma dv_in2 (a b : Int) (i j : Nat) :
    drivenValues a b i (in2W j) = if j < i then some (ibit b j) else none := by
  induction i with
  | zero =>
    rw [if_neg (by omega), drivenValues, builtValues]
    rw [Function.update_noteq (show in2W j ≠ 0 by simp only [in2W]; omega)]
  | succ i ih =>
    rw [drivenValues]
    rcases eq_or_ne j i with rfl | hj
    · rw [(Function.update_noteq (show in2W j ≠ carryW j by simp only [in2W, carryW]; omega) _ _), (Function.update_noteq (show in2W j ≠ w2W j by simp only [in2W, w2W]; omega) _ _), (Function.update_noteq (show in2W j ≠ w3W j by simp only [in2W, w3W]; omega) _ _), (Function.update_noteq (show in2W j ≠ outW j by simp only [in2W, outW]; omega) _ _), (Function.update_noteq (show in2W j ≠ w1W j by simp only [in2W, w1W]; omega) _ _), Function.update_same _ _ _]
      rw [if_pos (by omega)]
    · rw [(Function.update_noteq (show in2W j ≠ carryW i by simp only [in2W, carryW]; omega) _ _), (Function.update_noteq (show in2W j ≠ w2W i by simp only [in2W, w2W]; omega) _ _), (Function.update_noteq (show in2W j ≠ w3W i by simp only [in2W, w3W]; omega) _ _), (Function.update_noteq (show in2W j ≠ outW i by simp only [in2W, outW]; omega) _ _), (Function.update_noteq (show in2W j ≠ w1W i by simp only [in2W, w1W]; omega) _ _), (Function.update_noteq (show in2W j ≠ in2W i by simp only [in2W]; omega) _ _), (Function.update_noteq (show in2W j ≠ in1W i by simp only [in2W, in1W]; omega) _ _)]
      rw [ih]
      by_cases hji : j < i
      · rw [if_pos hji, if_pos (by omega)]
      · rw [if_neg hji, if_neg (by omega)]

lemma dv_w1 (a b : Int) (i j : Nat) :
    drivenValues a b i (w1W j) = if j < i then some (Int.xor (ibit a j) (ibit b j)) else none := by
  induction i with
  | zero =>
    rw [if_neg (by omega), drivenValues, builtValues]
    rw [Function.update_noteq (show w1W j ≠ 0 by simp only [w1W]; omega)]
  | succ i ih =>
    rw [drivenValues]
    rcases eq_or_ne j i with rfl | hj
    · rw [(Function.update_noteq (show w1W j ≠ carryW j by simp only [w1W, carryW]; omega) _ _), (Function.update_noteq (show w1W j ≠ w2W j by simp only [w1W, w2W]; omega) _ _), (Function.update_noteq (show w1W j ≠ w3W j by simp only [w1W, w3W]; omega) _ _), (Function.update_noteq (show w1W j ≠ outW j by simp only [w1W, outW]; omega) _ _), Function.update_same _ _ _]
      rw [if_pos (by omega)]
    · rw [(Function.update_noteq (show w1W j ≠ carryW i by simp only [w1W, carryW]; omega) _ _), (Function.update_noteq (show w1W j ≠ w2W i by simp only [w1W, w2W]; omega) _ _), (Function.update_noteq (show w1W j ≠ w3W i by simp only [w1W, w3W]; omega) _ _), (Function.update_noteq (show w1W j ≠ outW i by simp only [w1W, outW]; omega) _ _), (Function.update_noteq (show w1W j ≠ w1W i by simp only [w1W]; omega) _ _), (Function.update_noteq (show w1W j ≠ in2W i by simp only [w1W, in2W]; omega) _ _), (Function.update_noteq (show w1W j ≠ in1W i by simp only [w1W, in1W]; omega) _ _)]
      rw [ih]
      by_cases hji : j < i
      · rw [if_pos hji, if_pos (by omega)]
      · rw [if_neg hji, if_neg (by omega)]

lemma dv_out (a b : Int) (i j : Nat) :
    drivenValues a b i (outW j) = if j < i then some (sumBit a b j) else none := by
  induction i with
  | zero =>
    rw [if_neg (by omega), drivenValues, builtValues]
    rw [Function.update_noteq (show outW j ≠ 0 by simp only [outW]; omega)]
  | succ i ih =>
    rw [drivenValues]
    rcases eq_or_ne j i with rfl | hj
    · rw [(Function.update_noteq (show outW j ≠ carryW j by simp only [outW, carryW]; omega) _ _), (Function.update_noteq (show outW j ≠ w2W j by simp only [outW, w2W]; omega) _ _), (Function.update_noteq (show outW j ≠ w3W j by simp only [outW, w3W]; omega) _ _), Function.update_same _ _ _]
      rw [if_pos (by omega)]
    · rw [(Function.update_noteq (show outW j ≠ carryW i by simp only [outW, carryW]; omega) _ _), (Function.update_noteq (show outW j ≠ w2W i by simp only [outW, w2W]; omega) _ _), (Function.update_noteq (show outW j ≠ w3W i by simp only [outW, w3W]; omega) _ _), (Function.update_noteq (show outW j ≠ outW i by simp only [outW]; omega) _ _), (Function.update_noteq (show outW j ≠ w1W i by simp only [outW, w1W]; omega) _ _), (Function.update_noteq (show outW j ≠ in2W i by simp only [outW, in2W]; omega) _ _), (Function.update_noteq (show outW j ≠ in1W i by simp only [outW, in1W]; omega) _ _)]
      rw [ih]
      by_cases hji : j < i
      · rw [if_pos hji, if_pos (by omega)]
      · rw [if_neg hji, if_neg (by omega)]

lemma dv_w3 (a b : Int) (i j : Nat) :
    drivenValues a b i (w3W j) = if j < i then some (Int.land (carrySeq a b j) (Int.xor (ibit a j) (ibit b j))) else none := by
  induction i with
  | zero =>
    rw [if_neg (by omega), drivenValues, builtValues]
    rw [Function.update_noteq (show w3W j ≠ 0 by simp only [w3W]; omega)]
  | succ i ih =>
    rw [drivenValues]
    rcases eq_or_ne j i with rfl | hj
    · rw [(Function.update_noteq (show w3W j ≠ carryW j by simp only [w3W, carryW]; omega) _ _), (Function.update_noteq (show w3W j ≠ w2W j by simp only [w3W, w2W]; omega) _ _), Function.update_same _ _ _]
      rw [if_pos (by omega)]
    · rw [(Function.update_noteq (show w3W j ≠ carryW i by simp only [w3W, carryW]; omega) _ _), (Function.update_noteq (show w3W j ≠ w2W i by simp only [w3W, w2W]; omega) _ _), (Function.update_noteq (show w3W j ≠ w3W i by simp only [w3W]; omega) _ _), (Function.update_noteq (show w3W j ≠ outW i by simp only [w3W, outW]; omega) _ _), (Function.update_noteq (show w3W j ≠ w1W i by simp only [w3W, w1W]; omega) _ _), (Function.update_noteq (show w3W j ≠ in2W i by simp only [w3W, in2W]; omega) _ _), (Function.update_noteq (show w3W j ≠ in1W i by simp only [w3W, in1W]; omega) _ _)]
      rw [ih]
      by_cases hji : j < i
      · rw [if_pos hji, if_pos (by omega)]
      · rw [if_neg hji, if_neg (by omega)]

lemma dv_w2 (a b : Int) (i j : Nat) :
    drivenValues a b i (w2W j) = if j < i then some (Int.land (ibit a j) (ibit b j)) else none := by
  induction i with
  | zero =>
    rw [if_neg (by omega), drivenValues, builtValues]
    rw [Function.update_noteq (show w2W j ≠ 0 by simp only [w2W]; omega)]
  | succ i ih =>
    rw [drivenValues]
    rcases eq_or_ne j i with rfl | hj
    · rw [(Function.update_noteq (show w2W j ≠ carryW j by simp only [w2W, carryW]; omega) _ _), Function.update_same _ _ _]
      rw [if_pos (by omega)]
    · rw [(Function.update_noteq (show w2W j ≠ carryW i by simp only [w2W, carryW]; omega) _ _), (Function.update_noteq (show w2W j ≠ w2W i by simp only [w2W]; omega) _ _), (Function.update_noteq (show w2W j ≠ w3W i by simp only [w2W, w3W]; omega) _ _), (Function.update_noteq (show w2W j ≠ outW i by simp only [w2W, outW]; omega) _ _), (Function.update_noteq (show w2W j ≠ w1W i by simp only [w2W, w1W]; omega) _ _), (Function.update_noteq (show w2W j ≠ in2W i by simp only [w2W, in2W]; omega) _ _), (Function.update_noteq (show w2W j ≠ in1W i by simp only [w2W, in1W]; omega) _ _)]
      rw [ih]
      by_cases hji : j < i
      · rw [if_pos hji, if_pos (by omega)]
      · rw [if_neg hji, if_neg (by omega)]

lemma dv_carry (a b : Int) (i j : Nat) :
    drivenValues a b i (carryW j) = if j < i then some (carrySeq a b (j + 1)) else none := by
  induction i with
  | zero =>
    rw [if_neg (by omega), drivenValues, builtValues]
    rw [Function.update_noteq (show carryW j ≠ 0 by simp only [carryW]; omega)]
  | succ i ih =>
    rw [drivenValues]
    rcases eq_or_ne j i with rfl | hj
    · rw [Function.update_same _ _ _]
      rw [if_pos (by omega)]
    · rw [(Function.update_noteq (show carryW j ≠ carryW i by simp only [carryW]; omega) _ _), (Function.update_noteq (show carryW j ≠ w2W i by simp only [carryW, w2W]; omega) _ _), (Function.update_noteq (show carryW j ≠ w3W i by simp only [carryW, w3W]; omega) _ _), (Function.update_noteq (show carryW j ≠ outW i by simp only [carryW, outW]; omega) _ _), (Function.update_noteq (show carryW j ≠ w1W i by simp only [carryW, w1W]; omega) _ _), (Function.update_noteq (show carryW j ≠ in2W i by simp only [carryW, in2W]; omega) _ _), (Function.update_noteq (show carryW j ≠ in1W i by simp only [carryW, in1W]; omega) _ _)]
      rw [ih]
      by_cases hji : j < i
      · rw [if_pos hji, if_pos (by omega)]
      · rw [if_neg hji, if_neg (by omega)]

lemma dv_w0 (a b : Int) (i : Nat) : drivenValues a b i 0 = some 0 := by
  induction i with
  | zero =>
    rw [drivenValues, builtValues, Function.update_same]
  | succ i ih =>
    rw [drivenValues]
    rw [(Function.update_noteq (show (0:Nat) ≠ carryW i by simp only [carryW]; omega) _ _), (Function.update_noteq (show (0:Nat) ≠ w2W i by simp only [w2W]; omega) _ _), (Function.update_noteq (show (0:Nat) ≠ w3W i by simp only [w3W]; omega) _ _), (Function.update_noteq (show (0:Nat) ≠ outW i by simp only [outW]; omega) _ _), (Function.update_noteq (show (0:Nat) ≠ w1W i by simp only [w1W]; omega) _ _), (Function.update_noteq (show (0:Nat) ≠ in2W i by simp only [in2W]; omega) _ _), (Function.update_noteq (show (0:Nat) ≠ in1W i by simp only [in1W]; omega) _ _)]
    exact ih

lemma dv_cin (a b : Int) (i : Nat) :
    drivenValues a b i (cinW i) = some (carrySeq a b i) := by
  cases i with
  | zero => exact dv_w0 a b 0
  | succ i =>
    show drivenValues a b (i + 1) (carryW i) = _
    rw [dv_carry, if_pos (by omega)]

/-! ### Helpers for applying the `update` equations to named gates -/

lemma updateObs_fire' (fuel : Nat) (st : CState) (o : Obs) (op : GateOp)
    (i1 i2 ow : Nat) (x y : Int) (ho : o = .gate ⟨op, i1, i2, ow⟩)
    (h1 : st.values i1 = some x) (h2 : st.values i2 = some y) :
    updateObs fuel st o = setWire fuel st ow (op.operation x y) := by
  subst ho
  exact updateObs_gate_fire fuel st op i1 i2 ow x y h1 h2

lemma updateObs_skip2' (fuel : Nat) (st : CState) (o : Obs) (op : GateOp)
    (i1 i2 ow : Nat) (ho : o = .gate ⟨op, i1, i2, ow⟩)
    (h2 : st.values i2 = none) :
    updateObs fuel st o = (st, true) := by
  subst ho
  exact updateObs_gate_skip2 fuel st op i1 i2 ow h2

lemma updateObs_conv_skip' (fuel : Nat) (st : CState) (o : Obs) (outs : List Nat)
    (ho : o = .converter outs)
    (h : outs.all (fun ow => (st.values ow).isSome) = false) :
    updateObs fuel st o = (st, true) := by
  subst ho
  exact updateObs_conv_skip fuel st outs h

lemma updateObs_conv_fire' (fuel : Nat) (st : CState) (o : Obs) (outs : List Nat)
    (ho : o = .converter outs)
    (h : outs.all (fun ow => (st.values ow).isSome) = true) :
    updateObs fuel st o =
      ({ st with
          result := some (from_binary (outs.map (fun ow => (st.values ow).getD 0))),
          sign := some ((outs.map (fun ow => (st.values ow).getD 0)).getLastD 0) },
        true) := by
  subst ho
  exact updateObs_conv_fire fuel st outs h

/-- Setting the first operand wire of block `i`: both gates of the first
half adder are notified, but their second input is still unset, so nothing
further happens. -/
lemma set_in1_cascade (n i : Nat) (a b : Int) (st : CState) (hi : i < n)
    (ho1 : st.obs (in1W i) = [xor1G i, and1G i])
    (hv_in2 : st.values (in2W i) = none) :
    setWire 9 st (in1W i) (ibit a i) =
      ({ st with values := Function.update st.values (in1W i) (some (ibit a i)) },
        true) := by
  have hbit := ibit_cases a i
  rw [show (9 : Nat) = 8 + 1 from rfl, setWire_ok 8 st (in1W i) (ibit a i) hbit, ho1]
  have hin2 : Function.update st.values (in1W i) (some (ibit a i)) (in2W i) = none := by
    rw [Function.update_noteq (show in2W i ≠ in1W i by simp only [in2W, in1W]; omega),
      hv_in2]
  have e1 : updateObs 8
      { st with values := Function.update st.values (in1W i) (some (ibit a i)) }
      (xor1G i) =
      ({ st with values := Function.update st.values (in1W i) (some (ibit a i)) },
        true) :=
    updateObs_skip2' 8 _ _ .xorOp (in1W i) (in2W i) (w1W i) rfl hin2
  have e2 : updateObs 8
      { st with values := Function.update st.values (in1W i) (some (ibit a i)) }
      (and1G i) =
      ({ st with values := Function.update st.values (in1W i) (some (ibit a i)) },
        true) :=
    updateObs_skip2' 8 _ _ .andOp (in1W i) (in2W i) (w2W i) rfl hin2
  rw [notifyList_cons 8 _ _ _ _ e1, notifyList_cons 8 _ _ _ _ e2, notifyList_nil]

set_option maxHeartbeats 2000000 in
/-- Setting the second operand wire of block `i` runs the whole block-`i`
cascade: the first half adder fires, then the second half adder (setting the
block's output, which the converter observes), then the OR gate (setting the
carry-out, which block `i+1`'s gates observe but cannot yet act on).  When
`i` is the last block the converter sees every output set and records
`result` and `sign`. -/
lemma set_in2_cascade (n i : Nat) (a b : Int) (st : CState) (hi : i < n)
    (ho2 : st.obs (in2W i) = [xor1G i, and1G i])
    (how1 : st.obs (w1W i) = [xor2G i, and2G i])
    (how2 : st.obs (w2W i) = [orG i])
    (how3 : st.obs (w3W i) = [orG i])
    (hoout : st.obs (outW i) = [theConv n])
    (hocarry : st.obs (carryW i) = if i + 1 < n then [xor2G (i + 1), and2G (i + 1)] else [])
    (hv_in1 : st.values (in1W i) = some (ibit a i))
    (hvcin : st.values (cinW i) = some (carrySeq a b i))
    (hv_w2 : st.values (w2W i) = none)
    (hv_w1next : i + 1 < n → st.values (w1W (i + 1)) = none)
    (hvout : ∀ j, j < n → st.values (outW j) = if j < i then some (sumBit a b j) else none) :
    setWire 9 st (in2W i) (ibit b i) =
      ({ st with
          values := Function.update (Function.update (Function.update (Function.update (Function.update (Function.update st.values (in2W i) (some (ibit b i))) (w1W i) (some (Int.xor (ibit a i) (ibit b i)))) (outW i) (some (sumBit a b i))) (w3W i) (some (Int.land (carrySeq a b i) (Int.xor (ibit a i) (ibit b i))))) (w2W i) (some (Int.land (ibit a i) (ibit b i)))) (carryW i) (some (carrySeq a b (i + 1))),
          result := if i + 1 = n then some (from_binary (sumList a b n)) else st.result,
          sign := if i + 1 = n then some ((sumList a b n).getLastD 0) else st.sign },
        true) := by
  have hba := ibit_cases b i
  have hC1in1 : (Function.update st.values (in2W i) (some (ibit b i))) (in1W i) = some (ibit a i) := by
    rw [Function.update_noteq (show in1W i ≠ in2W i by simp only [in1W, in2W]; omega) _ _,
      hv_in1]
  have hC2cin : (Function.update (Function.update st.values (in2W i) (some (ibit b i))) (w1W i) (some (Int.xor (ibit a i) (ibit b i)))) (cinW i) = some (carrySeq a b i) := by
    rw [Function.update_noteq (show cinW i ≠ w1W i by rw [cinW_eq]; simp only [w1W]; split <;> omega) _ _,
      Function.update_noteq (show cinW i ≠ in2W i by rw [cinW_eq]; simp only [in2W]; split <;> omega) _ _,
      hvcin]
  have hC2w1 : (Function.update (Function.update st.values (in2W i) (some (ibit b i))) (w1W i) (some (Int.xor (ibit a i) (ibit b i)))) (w1W i) = some (Int.xor (ibit a i) (ibit b i)) := by
    rw [Function.update_same _ _ _]
  have hC3cin : (Function.update (Function.update (Function.update st.values (in2W i) (some (ibit b i))) (w1W i) (some (Int.xor (ibit a i) (ibit b i)))) (outW i) (some (sumBit a b i))) (cinW i) = some (carrySeq a b i) := by
    rw [Function.update_noteq (show cinW i ≠ outW i by rw [cinW_eq]; simp only [outW]; split <;> omega) _ _,
      Function.update_noteq (show cinW i ≠ w1W i by rw [cinW_eq]; simp only [w1W]; split <;> omega) _ _,
      Function.update_noteq (show cinW i ≠ in2W i by rw [cinW_eq]; simp only [in2W]; split <;> omega) _ _,
      hvcin]
  have hC3w1 : (Function.update (Function.update (Function.update st.values (in2W i) (some (ibit b i))) (w1W i) (some (Int.xor (ibit a i) (ibit b i)))) (outW i) (some (sumBit a b i))) (w1W i) = some (Int.xor (ibit a i) (ibit b i)) := by
    rw [Function.update_noteq (show w1W i ≠ outW i by simp only [w1W, outW]; omega) _ _,
      Function.update_same _ _ _]
  have hC4in1 : (Function.update (Function.update (Function.update (Function.update st.values (in2W i) (some (ibit b i))) (w1W i) (some (Int.xor (ibit a i) (ibit b i)))) (outW i) (some (sumBit a b i))) (w3W i) (some (Int.land (carrySeq a b i) (Int.xor (ibit a i) (ibit b i))))) (in1W i) = some (ibit a i) := by
    rw [Function.update_noteq (show in1W i ≠ w3W i by simp only [in1W, w3W]; omega) _ _,
      Function.update_noteq (show in1W i ≠ outW i by simp only [in1W, outW]; omega) _ _,
      Function.update_noteq (show in1W i ≠ w1W i by simp only [in1W, w1W]; omega) _ _,
      Function.update_noteq (show in1W i ≠ in2W i by simp only [in1W, in2W]; omega) _ _,
      hv_in1]
  have hC4in2 : (Function.update (Function.update (Function.update (Function.update st.values (in2W i) (some (ibit b i))) (w1W i) (some (Int.xor (ibit a i) (ibit b i)))) (outW i) (some (sumBit a b i))) (w3W i) (some (Int.land (carrySeq a b i) (Int.xor (ibit a i) (ibit b i))))) (in2W i) = some (ibit b i) := by
    rw [Function.update_noteq (show in2W i ≠ w3W i by simp only [in2W, w3W]; omega) _ _,
      Function.update_noteq (show in2W i ≠ outW i by simp only [in2W, outW]; omega) _ _,
      Function.update_noteq (show in2W i ≠ w1W i by simp only [in2W, w1W]; omega) _ _,
      Function.update_same _ _ _]
  have hC4w2 : (Function.update (Function.update (Function.update (Function.update st.values (in2W i) (some (ibit b i))) (w1W i) (some (Int.xor (ibit a i) (ibit b i)))) (outW i) (some (sumBit a b i))) (w3W i) (some (Int.land (carrySeq a b i) (Int.xor (ibit a i) (ibit b i))))) (w2W i) = none := by
    rw [Function.update_noteq (show w2W i ≠ w3W i by simp only [w2W, w3W]; omega) _ _,
      Function.update_noteq (show w2W i ≠ outW i by simp only [w2W, outW]; omega) _ _,
      Function.update_noteq (show w2W i ≠ w1W i by simp only [w2W, w1W]; omega) _ _,
      Function.update_noteq (show w2W i ≠ in2W i by simp only [w2W, in2W]; omega) _ _,
      hv_w2]
  have hC5w3 : (Function.update (Function.update (Function.update (Function.update (Function.update st.values (in2W i) (some (ibit b i))) (w1W i) (some (Int.xor (ibit a i) (ibit b i)))) (outW i) (some (sumBit a b i))) (w3W i) (some (Int.land (carrySeq a b i) (Int.xor (ibit a i) (ibit b i))))) (w2W i) (some (Int.land (ibit a i) (ibit b i)))) (w3W i) = some (Int.land (carrySeq a b i) (Int.xor (ibit a i) (ibit b i))) := by
    rw [Function.update_noteq (show w3W i ≠ w2W i by simp only [w3W, w2W]; omega) _ _,
      Function.update_same _ _ _]
  have hC5w2 : (Function.update (Function.update (Function.update (Function.update (Function.update st.values (in2W i) (some (ibit b i))) (w1W i) (some (Int.xor (ibit a i) (ibit b i)))) (outW i) (some (sumBit a b i))) (w3W i) (some (Int.land (carrySeq a b i) (Int.xor (ibit a i) (ibit b i))))) (w2W i) (some (Int.land (ibit a i) (ibit b i)))) (w2W i) = some (Int.land (ibit a i) (ibit b i)) := by
    rw [Function.update_same _ _ _]

  rcases eq_or_lt_of_le (Nat.succ_le_of_lt hi) with hn | hn
  case inl =>
    rw [if_pos hn, if_pos hn]
    have hC3out : ∀ j, j < n → (Function.update (Function.update (Function.update st.values (in2W i) (some (ibit b i))) (w1W i) (some (Int.xor (ibit a i) (ibit b i)))) (outW i) (some (sumBit a b i))) (outW j) = some (sumBit a b j) := by
      intro j hj
      rcases eq_or_ne j i with rfl | hji
      · rw [Function.update_same _ _ _]
      · rw [Function.update_noteq (show outW j ≠ outW i by simp only [outW]; omega) _ _,
          Function.update_noteq (show outW j ≠ w1W i by simp only [outW, w1W]; omega) _ _,
          Function.update_noteq (show outW j ≠ in2W i by simp only [outW, in2W]; omega) _ _,
          hvout j hj, if_pos (by omega)]
    have hallT : (outsList n).all (fun ow => (((Function.update (Function.update (Function.update st.values (in2W i) (some (ibit b i))) (w1W i) (some (Int.xor (ibit a i) (ibit b i)))) (outW i) (some (sumBit a b i)))) ow).isSome) = true := by
      rw [List.all_eq_true]
      intro x hx
      obtain ⟨j, hj, rfl⟩ := List.mem_map.mp hx
      rw [hC3out j (List.mem_range.mp hj)]
      rfl
    have hbl : (outsList n).map (fun ow => (((Function.update (Function.update (Function.update st.values (in2W i) (some (ibit b i))) (w1W i) (some (Int.xor (ibit a i) (ibit b i)))) (outW i) (some (sumBit a b i)))) ow).getD 0) = sumList a b n := by
      simp only [outsList, sumList, List.map_map]
      apply List.map_congr_left
      intro j hj
      simp only [Function.comp_apply]
      rw [hC3out j (List.mem_range.mp hj)]
      rfl
    have econv : updateObs 6 ({ st with values := Function.update (Function.update (Function.update st.values (in2W i) (some (ibit b i))) (w1W i) (some (Int.xor (ibit a i) (ibit b i)))) (outW i) (some (sumBit a b i)) }) (theConv n) = ({ st with values := Function.update (Function.update (Function.update st.values (in2W i) (some (ibit b i))) (w1W i) (some (Int.xor (ibit a i) (ibit b i)))) (outW i) (some (sumBit a b i)), result := some (from_binary (sumList a b n)), sign := some ((sumList a b n).getLastD 0) }, true) := by
      rw [updateObs_conv_fire' 6 _ (theConv n) (outsList n) rfl hallT]
      dsimp only
      rw [hbl]
    have esetout : setWire 7 ({ st with values := Function.update (Function.update st.values (in2W i) (some (ibit b i))) (w1W i) (some (Int.xor (ibit a i) (ibit b i))) }) (outW i) (sumBit a b i) = ({ st with values := Function.update (Function.update (Function.update st.values (in2W i) (some (ibit b i))) (w1W i) (some (Int.xor (ibit a i) (ibit b i)))) (outW i) (some (sumBit a b i)), result := some (from_binary (sumList a b n)), sign := some ((sumList a b n).getLastD 0) }, true) := by
      rw [show (7 : Nat) = 6 + 1 from rfl, setWire_ok 6 _ _ _ (sumBit_bit a b i)]
      dsimp only
      rw [hoout, notifyList_cons 6 _ _ _ _ econv, notifyList_nil]
    have exor2 : updateObs 7 ({ st with values := Function.update (Function.update st.values (in2W i) (some (ibit b i))) (w1W i) (some (Int.xor (ibit a i) (ibit b i))) }) (xor2G i) = ({ st with values := Function.update (Function.update (Function.update st.values (in2W i) (some (ibit b i))) (w1W i) (some (Int.xor (ibit a i) (ibit b i)))) (outW i) (some (sumBit a b i)), result := some (from_binary (sumList a b n)), sign := some ((sumList a b n).getLastD 0) }, true) := by
      rw [updateObs_fire' 7 _ (xor2G i) .xorOp (cinW i) (w1W i) (outW i) (carrySeq a b i) (Int.xor (ibit a i) (ibit b i)) rfl hC2cin hC2w1]
      rw [show GateOp.operation .xorOp (carrySeq a b i) (Int.xor (ibit a i) (ibit b i)) = sumBit a b i from rfl]
      exact esetout
    have eor0 : updateObs 6 ({ st with values := Function.update (Function.update (Function.update (Function.update st.values (in2W i) (some (ibit b i))) (w1W i) (some (Int.xor (ibit a i) (ibit b i)))) (outW i) (some (sumBit a b i))) (w3W i) (some (Int.land (carrySeq a b i) (Int.xor (ibit a i) (ibit b i)))), result := some (from_binary (sumList a b n)), sign := some ((sumList a b n).getLastD 0) }) (orG i) = ({ st with values := Function.update (Function.update (Function.update (Function.update st.values (in2W i) (some (ibit b i))) (w1W i) (some (Int.xor (ibit a i) (ibit b i)))) (outW i) (some (sumBit a b i))) (w3W i) (some (Int.land (carrySeq a b i) (Int.xor (ibit a i) (ibit b i)))), result := some (from_binary (sumList a b n)), sign := some ((sumList a b n).getLastD 0) }, true) :=
      updateObs_skip2' 6 _ _ .orOp (w3W i) (w2W i) (carryW i) rfl hC4w2
    have esetw3 : setWire 7 ({ st with values := Function.update (Function.update (Function.update st.values (in2W i) (some (ibit b i))) (w1W i) (some (Int.xor (ibit a i) (ibit b i)))) (outW i) (some (sumBit a b i)), result := some (from_binary (sumList a b n)), sign := some ((sumList a b n).getLastD 0) }) (w3W i) (Int.land (carrySeq a b i) (Int.xor (ibit a i) (ibit b i))) = ({ st with values := Function.update (Function.update (Function.update (Function.update st.values (in2W i) (some (ibit b i))) (w1W i) (some (Int.xor (ibit a i) (ibit b i)))) (outW i) (some (sumBit a b i))) (w3W i) (some (Int.land (carrySeq a b i) (Int.xor (ibit a i) (ibit b i)))), result := some (from_binary (sumList a b n)), sign := some ((sumList a b n).getLastD 0) }, true) := by
      rw [show (7 : Nat) = 6 + 1 from rfl,
        setWire_ok 6 _ _ _ (land_bit (carrySeq_bit a b i) (xor_bit (ibit_cases a i) (ibit_cases b i)))]
      dsimp only
      rw [how3, notifyList_cons 6 _ _ _ _ eor0, notifyList_nil]
    have eand2 : updateObs 7 ({ st with values := Function.update (Function.update (Function.update st.values (in2W i) (some (ibit b i))) (w1W i) (some (Int.xor (ibit a i) (ibit b i)))) (outW i) (some (sumBit a b i)), result := some (from_binary (sumList a b n)), sign := some ((sumList a b n).getLastD 0) }) (and2G i) = ({ st with values := Function.update (Function.update (Function.update (Function.update st.values (in2W i) (some (ibit b i))) (w1W i) (some (Int.xor (ibit a i) (ibit b i)))) (outW i) (some (sumBit a b i))) (w3W i) (some (Int.land (carrySeq a b i) (Int.xor (ibit a i) (ibit b i)))), result := some (from_binary (sumList a b n)), sign := some ((sumList a b n).getLastD 0) }, true) := by
      rw [updateObs_fire' 7 _ (and2G i) .andOp (cinW i) (w1W i) (w3W i) (carrySeq a b i) (Int.xor (ibit a i) (ibit b i)) rfl hC3cin hC3w1]
      rw [show GateOp.operation .andOp (carrySeq a b i) (Int.xor (ibit a i) (ibit b i)) = (Int.land (carrySeq a b i) (Int.xor (ibit a i) (ibit b i))) from rfl]
      exact esetw3
    have esetw1 : setWire 8 ({ st with values := Function.update st.values (in2W i) (some (ibit b i)) }) (w1W i) (Int.xor (ibit a i) (ibit b i)) = ({ st with values := Function.update (Function.update (Function.update (Function.update st.values (in2W i) (some (ibit b i))) (w1W i) (some (Int.xor (ibit a i) (ibit b i)))) (outW i) (some (sumBit a b i))) (w3W i) (some (Int.land (carrySeq a b i) (Int.xor (ibit a i) (ibit b i)))), result := some (from_binary (sumList a b n)), sign := some ((sumList a b n).getLastD 0) }, true) := by
      rw [show (8 : Nat) = 7 + 1 from rfl,
        setWire_ok 7 _ _ _ (xor_bit (ibit_cases a i) (ibit_cases b i))]
      dsimp only
      rw [how1, notifyList_cons 7 _ _ _ _ exor2, notifyList_cons 7 _ _ _ _ eand2,
        notifyList_nil]
    have exor1 : updateObs 8 ({ st with values := Function.update st.values (in2W i) (some (ibit b i)) }) (xor1G i) = ({ st with values := Function.update (Function.update (Function.update (Function.update st.values (in2W i) (some (ibit b i))) (w1W i) (some (Int.xor (ibit a i) (ibit b i)))) (outW i) (some (sumBit a b i))) (w3W i) (some (Int.land (carrySeq a b i) (Int.xor (ibit a i) (ibit b i)))), result := some (from_binary (sumList a b n)), sign := some ((sumList a b n).getLastD 0) }, true) := by
      rw [updateObs_fire' 8 _ (xor1G i) .xorOp (in1W i) (in2W i) (w1W i) (ibit a i) (ibit b i) rfl hC1in1
        (Function.update_same _ _ _)]
      rw [show GateOp.operation .xorOp (ibit a i) (ibit b i) = (Int.xor (ibit a i) (ibit b i)) from rfl]
      exact esetw1
    have esetcarry : setWire 7 ({ st with values := Function.update (Function.update (Function.update (Function.update (Function.update st.values (in2W i) (some (ibit b i))) (w1W i) (some (Int.xor (ibit a i) (ibit b i)))) (outW i) (some (sumBit a b i))) (w3W i) (some (Int.land (carrySeq a b i) (Int.xor (ibit a i) (ibit b i))))) (w2W i) (some (Int.land (ibit a i) (ibit b i))), result := some (from_binary (sumList a b n)), sign := some ((sumList a b n).getLastD 0) }) (carryW i) (carrySeq a b (i + 1)) = ({ st with values := Function.update (Function.update (Function.update (Function.update (Function.update (Function.update st.values (in2W i) (some (ibit b i))) (w1W i) (some (Int.xor (ibit a i) (ibit b i)))) (outW i) (some (sumBit a b i))) (w3W i) (some (Int.land (carrySeq a b i) (Int.xor (ibit a i) (ibit b i))))) (w2W i) (some (Int.land (ibit a i) (ibit b i)))) (carryW i) (some (carrySeq a b (i + 1))), result := some (from_binary (sumList a b n)), sign := some ((sumList a b n).getLastD 0) }, true) := by
      rw [show (7 : Nat) = 6 + 1 from rfl, setWire_ok 6 _ _ _ (carrySeq_bit a b (i + 1))]
      dsimp only
      rw [hocarry, if_neg (by omega), notifyList_nil]
    have eor : updateObs 7 ({ st with values := Function.update (Function.update (Function.update (Function.update (Function.update st.values (in2W i) (some (ibit b i))) (w1W i) (some (Int.xor (ibit a i) (ibit b i)))) (outW i) (some (sumBit a b i))) (w3W i) (some (Int.land (carrySeq a b i) (Int.xor (ibit a i) (ibit b i))))) (w2W i) (some (Int.land (ibit a i) (ibit b i))), result := some (from_binary (sumList a b n)), sign := some ((sumList a b n).getLastD 0) }) (orG i) = ({ st with values := Function.update (Function.update (Function.update (Function.update (Function.update (Function.update st.values (in2W i) (some (ibit b i))) (w1W i) (some (Int.xor (ibit a i) (ibit b i)))) (outW i) (some (sumBit a b i))) (w3W i) (some (Int.land (carrySeq a b i) (Int.xor (ibit a i) (ibit b i))))) (w2W i) (some (Int.land (ibit a i) (ibit b i)))) (carryW i) (some (carrySeq a b (i + 1))), result := some (from_binary (sumList a b n)), sign := some ((sumList a b n).getLastD 0) }, true) := by
      rw [updateObs_fire' 7 _ (orG i) .orOp (w3W i) (w2W i) (carryW i) (Int.land (carrySeq a b i) (Int.xor (ibit a i) (ibit b i))) (Int.land (ibit a i) (ibit b i)) rfl hC5w3 hC5w2]
      rw [show GateOp.operation .orOp (Int.land (carrySeq a b i) (Int.xor (ibit a i) (ibit b i))) (Int.land (ibit a i) (ibit b i)) = (carrySeq a b (i + 1)) from rfl]
      exact esetcarry
    have esetw2 : setWire 8 ({ st with values := Function.update (Function.update (Function.update (Function.update st.values (in2W i) (some (ibit b i))) (w1W i) (some (Int.xor (ibit a i) (ibit b i)))) (outW i) (some (sumBit a b i))) (w3W i) (some (Int.land (carrySeq a b i) (Int.xor (ibit a i) (ibit b i)))), result := some (from_binary (sumList a b n)), sign := some ((sumList a b n).getLastD 0) }) (w2W i) (Int.land (ibit a i) (ibit b i)) = ({ st with values := Function.update (Function.update (Function.update (Function.update (Function.update (Function.update st.values (in2W i) (some (ibit b i))) (w1W i) (some (Int.xor (ibit a i) (ibit b i)))) (outW i) (some (sumBit a b i))) (w3W i) (some (Int.land (carrySeq a b i) (Int.xor (ibit a i) (ibit b i))))) (w2W i) (some (Int.land (ibit a i) (ibit b i)))) (carryW i) (some (carrySeq a b (i + 1))), result := some (from_binary (sumList a b n)), sign := some ((sumList a b n).getLastD 0) }, true) := by
      rw [show (8 : Nat) = 7 + 1 from rfl,
        setWire_ok 7 _ _ _ (land_bit (ibit_cases a i) (ibit_cases b i))]
      dsimp only
      rw [how2, notifyList_cons 7 _ _ _ _ eor, notifyList_nil]
    have eand1 : updateObs 8 ({ st with values := Function.update (Function.update (Function.update (Function.update st.values (in2W i) (some (ibit b i))) (w1W i) (some (Int.xor (ibit a i) (ibit b i)))) (outW i) (some (sumBit a b i))) (w3W i) (some (Int.land (carrySeq a b i) (Int.xor (ibit a i) (ibit b i)))), result := some (from_binary (sumList a b n)), sign := some ((sumList a b n).getLastD 0) }) (and1G i) = ({ st with values := Function.update (Function.update (Function.update (Function.update (Function.update (Function.update st.values (in2W i) (some (ibit b i))) (w1W i) (some (Int.xor (ibit a i) (ibit b i)))) (outW i) (some (sumBit a b i))) (w3W i) (some (Int.land (carrySeq a b i) (Int.xor (ibit a i) (ibit b i))))) (w2W i) (some (Int.land (ibit a i) (ibit b i)))) (carryW i) (some (carrySeq a b (i + 1))), result := some (from_binary (sumList a b n)), sign := some ((sumList a b n).getLastD 0) }, true) := by
      rw [updateObs_fire' 8 _ (and1G i) .andOp (in1W i) (in2W i) (w2W i) (ibit a i) (ibit b i) rfl hC4in1 hC4in2]
      rw [show GateOp.operation .andOp (ibit a i) (ibit b i) = (Int.land (ibit a i) (ibit b i)) from rfl]
      exact esetw2
    rw [show (9 : Nat) = 8 + 1 from rfl, setWire_ok 8 st (in2W i) (ibit b i) hba, ho2,
      notifyList_cons 8 _ _ _ _ exor1, notifyList_cons 8 _ _ _ _ eand1, notifyList_nil]
  case inr =>
    rw [if_neg (show ¬(i + 1 = n) by omega), if_neg (show ¬(i + 1 = n) by omega)]
    have hC3outnext : (Function.update (Function.update (Function.update st.values (in2W i) (some (ibit b i))) (w1W i) (some (Int.xor (ibit a i) (ibit b i)))) (outW i) (some (sumBit a b i))) (outW (i + 1)) = none := by
      rw [Function.update_noteq (show outW (i + 1) ≠ outW i by simp only [outW]; omega) _ _,
        Function.update_noteq (show outW (i + 1) ≠ w1W i by simp only [outW, w1W]; omega) _ _,
        Function.update_noteq (show outW (i + 1) ≠ in2W i by simp only [outW, in2W]; omega) _ _,
        hvout (i + 1) hn, if_neg (by omega)]
    have econv : updateObs 6 ({ st with values := Function.update (Function.update (Function.update st.values (in2W i) (some (ibit b i))) (w1W i) (some (Int.xor (ibit a i) (ibit b i)))) (outW i) (some (sumBit a b i)) }) (theConv n) = ({ st with values := Function.update (Function.update (Function.update st.values (in2W i) (some (ibit b i))) (w1W i) (some (Int.xor (ibit a i) (ibit b i)))) (outW i) (some (sumBit a b i)) }, true) := by
      apply updateObs_conv_skip' 6 _ _ (outsList n) rfl
      dsimp only
      rw [List.all_eq_false]
      refine ⟨outW (i + 1), List.mem_map.mpr ⟨i + 1, List.mem_range.mpr hn, rfl⟩, ?_⟩
      rw [hC3outnext]
      simp
    have esetout : setWire 7 ({ st with values := Function.update (Function.update st.values (in2W i) (some (ibit b i))) (w1W i) (some (Int.xor (ibit a i) (ibit b i))) }) (outW i) (sumBit a b i) = ({ st with values := Function.update (Function.update (Function.update st.values (in2W i) (some (ibit b i))) (w1W i) (some (Int.xor (ibit a i) (ibit b i)))) (outW i) (some (sumBit a b i)) }, true) := by
      rw [show (7 : Nat) = 6 + 1 from rfl, setWire_ok 6 _ _ _ (sumBit_bit a b i)]
      dsimp only
      rw [hoout, notifyList_cons 6 _ _ _ _ econv, notifyList_nil]
    have exor2 : updateObs 7 ({ st with values := Function.update (Function.update st.values (in2W i) (some (ibit b i))) (w1W i) (some (Int.xor (ibit a i) (ibit b i))) }) (xor2G i) = ({ st with values := Function.update (Function.update (Function.update st.values (in2W i) (some (ibit b i))) (w1W i) (some (Int.xor (ibit a i) (ibit b i)))) (outW i) (some (sumBit a b i)) }, true) := by
      rw [updateObs_fire' 7 _ (xor2G i) .xorOp (cinW i) (w1W i) (outW i) (carrySeq a b i) (Int.xor (ibit a i) (ibit b i)) rfl hC2cin hC2w1]
      rw [show GateOp.operation .xorOp (carrySeq a b i) (Int.xor (ibit a i) (ibit b i)) = sumBit a b i from rfl]
      exact esetout
    have eor0 : updateObs 6 ({ st with values := Function.update (Function.update (Function.update (Function.update st.values (in2W i) (some (ibit b i))) (w1W i) (some (Int.xor (ibit a i) (ibit b i)))) (outW i) (some (sumBit a b i))) (w3W i) (some (Int.land (carrySeq a b i) (Int.xor (ibit a i) (ibit b i)))) }) (orG i) = ({ st with values := Function.update (Function.update (Function.update (Function.update st.values (in2W i) (some (ibit b i))) (w1W i) (some (Int.xor (ibit a i) (ibit b i)))) (outW i) (some (sumBit a b i))) (w3W i) (some (Int.land (carrySeq a b i) (Int.xor (ibit a i) (ibit b i)))) }, true) :=
      updateObs_skip2' 6 _ _ .orOp (w3W i) (w2W i) (carryW i) rfl hC4w2
    have esetw3 : setWire 7 ({ st with values := Function.update (Function.update (Function.update st.values (in2W i) (some (ibit b i))) (w1W i) (some (Int.xor (ibit a i) (ibit b i)))) (outW i) (some (sumBit a b i)) }) (w3W i) (Int.land (carrySeq a b i) (Int.xor (ibit a i) (ibit b i))) = ({ st with values := Function.update (Function.update (Function.update (Function.update st.values (in2W i) (some (ibit b i))) (w1W i) (some (Int.xor (ibit a i) (ibit b i)))) (outW i) (some (sumBit a b i))) (w3W i) (some (Int.land (carrySeq a b i) (Int.xor (ibit a i) (ibit b i)))) }, true) := by
      rw [show (7 : Nat) = 6 + 1 from rfl,
        setWire_ok 6 _ _ _ (land_bit (carrySeq_bit a b i) (xor_bit (ibit_cases a i) (ibit_cases b i)))]
      dsimp only
      rw [how3, notifyList_cons 6 _ _ _ _ eor0, notifyList_nil]
    have eand2 : updateObs 7 ({ st with values := Function.update (Function.update (Function.update st.values (in2W i) (some (ibit b i))) (w1W i) (some (Int.xor (ibit a i) (ibit b i)))) (outW i) (some (sumBit a b i)) }) (and2G i) = ({ st with values := Function.update (Function.update (Function.update (Function.update st.values (in2W i) (some (ibit b i))) (w1W i) (some (Int.xor (ibit a i) (ibit b i)))) (outW i) (some (sumBit a b i))) (w3W i) (some (Int.land (carrySeq a b i) (Int.xor (ibit a i) (ibit b i)))) }, true) := by
      rw [updateObs_fire' 7 _ (and2G i) .andOp (cinW i) (w1W i) (w3W i) (carrySeq a b i) (Int.xor (ibit a i) (ibit b i)) rfl hC3cin hC3w1]
      rw [show GateOp.operation .andOp (carrySeq a b i) (Int.xor (ibit a i) (ibit b i)) = (Int.land (carrySeq a b i) (Int.xor (ibit a i) (ibit b i))) from rfl]
      exact esetw3
    have esetw1 : setWire 8 ({ st with values := Function.update st.values (in2W i) (some (ibit b i)) }) (w1W i) (Int.xor (ibit a i) (ibit b i)) = ({ st with values := Function.update (Function.update (Function.update (Function.update st.values (in2W i) (some (ibit b i))) (w1W i) (some (Int.xor (ibit a i) (ibit b i)))) (outW i) (some (sumBit a b i))) (w3W i) (some (Int.land (carrySeq a b i) (Int.xor (ibit a i) (ibit b i)))) }, true) := by
      rw [show (8 : Nat) = 7 + 1 from rfl,
        setWire_ok 7 _ _ _ (xor_bit (ibit_cases a i) (ibit_cases b i))]
      dsimp only
      rw [how1, notifyList_cons 7 _ _ _ _ exor2, notifyList_cons 7 _ _ _ _ eand2,
        notifyList_nil]
    have exor1 : updateObs 8 ({ st with values := Function.update st.values (in2W i) (some (ibit b i)) }) (xor1G i) = ({ st with values := Function.update (Function.update (Function.update (Function.update st.values (in2W i) (some (ibit b i))) (w1W i) (some (Int.xor (ibit a i) (ibit b i)))) (outW i) (some (sumBit a b i))) (w3W i) (some (Int.land (carrySeq a b i) (Int.xor (ibit a i) (ibit b i)))) }, true) := by
      rw [updateObs_fire' 8 _ (xor1G i) .xorOp (in1W i) (in2W i) (w1W i) (ibit a i) (ibit b i) rfl hC1in1
        (Function.update_same _ _ _)]
      rw [show GateOp.operation .xorOp (ibit a i) (ibit b i) = (Int.xor (ibit a i) (ibit b i)) from rfl]
      exact esetw1
    have hC6w1next : (Function.update (Function.update (Function.update (Function.update (Function.update (Function.update st.values (in2W i) (some (ibit b i))) (w1W i) (some (Int.xor (ibit a i) (ibit b i)))) (outW i) (some (sumBit a b i))) (w3W i) (some (Int.land (carrySeq a b i) (Int.xor (ibit a i) (ibit b i))))) (w2W i) (some (Int.land (ibit a i) (ibit b i)))) (carryW i) (some (carrySeq a b (i + 1)))) (w1W (i + 1)) = none := by
      rw [Function.update_noteq (show w1W (i + 1) ≠ carryW i by simp only [w1W, carryW]; omega) _ _,
        Function.update_noteq (show w1W (i + 1) ≠ w2W i by simp only [w1W, w2W]; omega) _ _,
        Function.update_noteq (show w1W (i + 1) ≠ w3W i by simp only [w1W, w3W]; omega) _ _,
        Function.update_noteq (show w1W (i + 1) ≠ outW i by simp only [w1W, outW]; omega) _ _,
        Function.update_noteq (show w1W (i + 1) ≠ w1W i by simp only [w1W]; omega) _ _,
        Function.update_noteq (show w1W (i + 1) ≠ in2W i by simp only [w1W, in2W]; omega) _ _,
        hv_w1next hn]
    have eskipA : updateObs 6 ({ st with values := Function.update (Function.update (Function.update (Function.update (Function.update (Function.update st.values (in2W i) (some (ibit b i))) (w1W i) (some (Int.xor (ibit a i) (ibit b i)))) (outW i) (some (sumBit a b i))) (w3W i) (some (Int.land (carrySeq a b i) (Int.xor (ibit a i) (ibit b i))))) (w2W i) (some (Int.land (ibit a i) (ibit b i)))) (carryW i) (some (carrySeq a b (i + 1))) }) (xor2G (i + 1)) = ({ st with values := Function.update (Function.update (Function.update (Function.update (Function.update (Function.update st.values (in2W i) (some (ibit b i))) (w1W i) (some (Int.xor (ibit a i) (ibit b i)))) (outW i) (some (sumBit a b i))) (w3W i) (some (Int.land (carrySeq a b i) (Int.xor (ibit a i) (ibit b i))))) (w2W i) (some (Int.land (ibit a i) (ibit b i)))) (carryW i) (some (carrySeq a b (i + 1))) }, true) :=
      updateObs_skip2' 6 _ _ .xorOp (cinW (i + 1)) (w1W (i + 1)) (outW (i + 1)) rfl hC6w1next
    have eskipB : updateObs 6 ({ st with values := Function.update (Function.update (Function.update (Function.update (Function.update (Function.update st.values (in2W i) (some (ibit b i))) (w1W i) (some (Int.xor (ibit a i) (ibit b i)))) (outW i) (some (sumBit a b i))) (w3W i) (some (Int.land (carrySeq a b i) (Int.xor (ibit a i) (ibit b i))))) (w2W i) (some (Int.land (ibit a i) (ibit b i)))) (carryW i) (some (carrySeq a b (i + 1))) }) (and2G (i + 1)) = ({ st with values := Function.update (Function.update (Function.update (Function.update (Function.update (Function.update st.values (in2W i) (some (ibit b i))) (w1W i) (some (Int.xor (ibit a i) (ibit b i)))) (outW i) (some (sumBit a b i))) (w3W i) (some (Int.land (carrySeq a b i) (Int.xor (ibit a i) (ibit b i))))) (w2W i) (some (Int.land (ibit a i) (ibit b i)))) (carryW i) (some (carrySeq a b (i + 1))) }, true) :=
      updateObs_skip2' 6 _ _ .andOp (cinW (i + 1)) (w1W (i + 1)) (w3W (i + 1)) rfl hC6w1next
    have esetcarry : setWire 7 ({ st with values := Function.update (Function.update (Function.update (Function.update (Function.update st.values (in2W i) (some (ibit b i))) (w1W i) (some (Int.xor (ibit a i) (ibit b i)))) (outW i) (some (sumBit a b i))) (w3W i) (some (Int.land (carrySeq a b i) (Int.xor (ibit a i) (ibit b i))))) (w2W i) (some (Int.land (ibit a i) (ibit b i))) }) (carryW i) (carrySeq a b (i + 1)) = ({ st with values := Function.update (Function.update (Function.update (Function.update (Function.update (Function.update st.values (in2W i) (some (ibit b i))) (w1W i) (some (Int.xor (ibit a i) (ibit b i)))) (outW i) (some (sumBit a b i))) (w3W i) (some (Int.land (carrySeq a b i) (Int.xor (ibit a i) (ibit b i))))) (w2W i) (some (Int.land (ibit a i) (ibit b i)))) (carryW i) (some (carrySeq a b (i + 1))) }, true) := by
      rw [show (7 : Nat) = 6 + 1 from rfl, setWire_ok 6 _ _ _ (carrySeq_bit a b (i + 1))]
      dsimp only
      rw [hocarry, if_pos hn, notifyList_cons 6 _ _ _ _ eskipA,
        notifyList_cons 6 _ _ _ _ eskipB, notifyList_nil]
    have eor : updateObs 7 ({ st with values := Function.update (Function.update (Function.update (Function.update (Function.update st.values (in2W i) (some (ibit b i))) (w1W i) (some (Int.xor (ibit a i) (ibit b i)))) (outW i) (some (sumBit a b i))) (w3W i) (some (Int.land (carrySeq a b i) (Int.xor (ibit a i) (ibit b i))))) (w2W i) (some (Int.land (ibit a i) (ibit b i))) }) (orG i) = ({ st with values := Function.update (Function.update (Function.update (Function.update (Function.update (Function.update st.values (in2W i) (some (ibit b i))) (w1W i) (some (Int.xor (ibit a i) (ibit b i)))) (outW i) (some (sumBit a b i))) (w3W i) (some (Int.land (carrySeq a b i) (Int.xor (ibit a i) (ibit b i))))) (w2W i) (some (Int.land (ibit a i) (ibit b i)))) (carryW i) (some (carrySeq a b (i + 1))) }, true) := by
      rw [updateObs_fire' 7 _ (orG i) .orOp (w3W i) (w2W i) (carryW i) (Int.land (carrySeq a b i) (Int.xor (ibit a i) (ibit b i))) (Int.land (ibit a i) (ibit b i)) rfl hC5w3 hC5w2]
      rw [show GateOp.operation .orOp (Int.land (carrySeq a b i) (Int.xor (ibit a i) (ibit b i))) (Int.land (ibit a i) (ibit b i)) = (carrySeq a b (i + 1)) from rfl]
      exact esetcarry
    have esetw2 : setWire 8 ({ st with values := Function.update (Function.update (Function.update (Function.update st.values (in2W i) (some (ibit b i))) (w1W i) (some (Int.xor (ibit a i) (ibit b i)))) (outW i) (some (sumBit a b i))) (w3W i) (some (Int.land (carrySeq a b i) (Int.xor (ibit a i) (ibit b i)))) }) (w2W i) (Int.land (ibit a i) (ibit b i)) = ({ st with values := Function.update (Function.update (Function.update (Function.update (Function.update (Function.update st.values (in2W i) (some (ibit b i))) (w1W i) (some (Int.xor (ibit a i) (ibit b i)))) (outW i) (some (sumBit a b i))) (w3W i) (some (Int.land (carrySeq a b i) (Int.xor (ibit a i) (ibit b i))))) (w2W i) (some (Int.land (ibit a i) (ibit b i)))) (carryW i) (some (carrySeq a b (i + 1))) }, true) := by
      rw [show (8 : Nat) = 7 + 1 from rfl,
        setWire_ok 7 _ _ _ (land_bit (ibit_cases a i) (ibit_cases b i))]
      dsimp only
      rw [how2, notifyList_cons 7 _ _ _ _ eor, notifyList_nil]
    have eand1 : updateObs 8 ({ st with values := Function.update (Function.update (Function.update (Function.update st.values (in2W i) (some (ibit b i))) (w1W i) (some (Int.xor (ibit a i) (ibit b i)))) (outW i) (some (sumBit a b i))) (w3W i) (some (Int.land (carrySeq a b i) (Int.xor (ibit a i) (ibit b i)))) }) (and1G i) = ({ st with values := Function.update (Function.update (Function.update (Function.update (Function.update (Function.update st.values (in2W i) (some (ibit b i))) (w1W i) (some (Int.xor (ibit a i) (ibit b i)))) (outW i) (some (sumBit a b i))) (w3W i) (some (Int.land (carrySeq a b i) (Int.xor (ibit a i) (ibit b i))))) (w2W i) (some (Int.land (ibit a i) (ibit b i)))) (carryW i) (some (carrySeq a b (i + 1))) }, true) := by
      rw [updateObs_fire' 8 _ (and1G i) .andOp (in1W i) (in2W i) (w2W i) (ibit a i) (ibit b i) rfl hC4in1 hC4in2]
      rw [show GateOp.operation .andOp (ibit a i) (ibit b i) = (Int.land (ibit a i) (ibit b i)) from rfl]
      exact esetw2
    rw [show (9 : Nat) = 8 + 1 from rfl, setWire_ok 8 st (in2W i) (ibit b i) hba, ho2,
      notifyList_cons 8 _ _ _ _ exor1, notifyList_cons 8 _ _ _ _ eand1, notifyList_nil]


/-! ### The driving loop invariant -/

/-- The full state after the first `i` input pairs of an `n`-bit circuit
have been driven. -/
def drivenState (a b : Int) (n i : Nat) : CState :=
  { nWires := 7 * n + 1,
    values := drivenValues a b i,
    obs := (convState n).obs,
    result := if n ≤ i ∧ 1 ≤ n then some (from_binary (sumList a b n)) else none,
    sign := if n ≤ i ∧ 1 ≤ n then some ((sumList a b n).getLastD 0) else none }

lemma driveAll_nil (fuel : Nat) (st : CState) : driveAll fuel st [] = (st, true) := by
  rw [driveAll]

lemma driveAll_cons (fuel : Nat) (st st1 st2 : CState) (w1 w2 : Nat) (d1 d2 : Int)
    (rest : List (Nat × Nat × Int × Int))
    (h1 : setWire fuel st w1 d1 = (st1, true))
    (h2 : setWire fuel st1 w2 d2 = (st2, true)) :
    driveAll fuel st ((w1, w2, d1, d2) :: rest) = driveAll fuel st2 rest := by
  rw [driveAll, h1]
  dsimp only
  rw [h2]

set_option maxHeartbeats 2000000 in
/-- Driving the remaining `k` input pairs takes the state from `i` driven
pairs to all `n` driven pairs. -/
lemma driveAll_inv (a b : Int) (n : Nat) :
    ∀ k i, i + k ≤ n →
      driveAll cascadeFuel (drivenState a b n i)
          ((List.range' i k).map (fun j => (in1W j, in2W j, ibit a j, ibit b j))) =
        (drivenState a b n (i + k), true) := by
  intro k
  induction k with
  | zero =>
    intro i hik
    rw [List.range'_zero, List.map_nil, driveAll_nil]
    rfl
  | succ k ih =>
    intro i hik
    have hi : i < n := by omega
    rw [List.range'_succ, List.map_cons]
    have hv_in2 : drivenValues a b i (in2W i) = none := by
      rw [dv_in2, if_neg (by omega)]
    have eA := set_in1_cascade n i a b (drivenState a b n i) hi
      (convObs_in1 n i hi) hv_in2
    have hv_w2st1 : Function.update (drivenValues a b i) (in1W i) (some (ibit a i))
        (w2W i) = none := by
      rw [Function.update_noteq (show w2W i ≠ in1W i by simp only [w2W, in1W]; omega) _ _,
        dv_w2, if_neg (by omega)]
    have hv_cinst1 : Function.update (drivenValues a b i) (in1W i) (some (ibit a i))
        (cinW i) = some (carrySeq a b i) := by
      rw [Function.update_noteq
        (show cinW i ≠ in1W i by rw [cinW_eq]; simp only [in1W]; split <;> omega) _ _,
        dv_cin]
    have hv_w1nextst1 : i + 1 < n → Function.update (drivenValues a b i) (in1W i)
        (some (ibit a i)) (w1W (i + 1)) = none := by
      intro hn
      rw [Function.update_noteq
        (show w1W (i + 1) ≠ in1W i by simp only [w1W, in1W]; omega) _ _,
        dv_w1, if_neg (by omega)]
    have hv_outst1 : ∀ j, j < n → Function.update (drivenValues a b i) (in1W i)
        (some (ibit a i)) (outW j) = if j < i then some (sumBit a b j) else none := by
      intro j hj
      rw [Function.update_noteq
        (show outW j ≠ in1W i by simp only [outW, in1W]; omega) _ _, dv_out]
    have eB := set_in2_cascade n i a b
      { drivenState a b n i with
        values := Function.update (drivenValues a b i) (in1W i) (some (ibit a i)) } hi
      (convObs_in2 n i hi) (convObs_w1 n i hi) (convObs_w2 n i hi) (convObs_w3 n i hi)
      (convObs_out n i hi)
      (by
        show (convState n).obs (carryW i) = _
        by_cases hn : i + 1 < n
        · rw [if_pos hn]
          exact convObs_cin n (i + 1) hn
        · rw [if_neg hn]
          have hin : i + 1 = n := by omega
          rw [show carryW i = cinW n by rw [← hin]; rfl]
          exact convObs_cin_self n)
      (Function.update_same _ _ _) hv_cinst1 hv_w2st1 hv_w1nextst1 hv_outst1
    rw [driveAll_cons cascadeFuel _ _ _ (in1W i) (in2W i) (ibit a i) (ibit b i) _ eA eB]
    have hstep : ({ ({ drivenState a b n i with
          values := Function.update (drivenValues a b i) (in1W i) (some (ibit a i)) } : CState) with
        values := Function.update (Function.update (Function.update (Function.update
          (Function.update (Function.update (Function.update (drivenValues a b i)
            (in1W i) (some (ibit a i)))
            (in2W i) (some (ibit b i)))
            (w1W i) (some (Int.xor (ibit a i) (ibit b i))))
            (outW i) (some (sumBit a b i)))
            (w3W i) (some (Int.land (carrySeq a b i) (Int.xor (ibit a i) (ibit b i)))))
            (w2W i) (some (Int.land (ibit a i) (ibit b i))))
            (carryW i) (some (carrySeq a b (i + 1))),
        result := if i + 1 = n then some (from_binary (sumList a b n)) else
          (drivenState a b n i).result,
        sign := if i + 1 = n then some ((sumList a b n).getLastD 0) else
          (drivenState a b n i).sign } : CState) = drivenState a b n (i + 1) := by
      show CState.mk _ _ _ _ _ = CState.mk _ _ _ _ _
      congr 1
      · by_cases hn : i + 1 = n
        · rw [if_pos hn, if_pos (show n ≤ i + 1 ∧ 1 ≤ n by omega)]
        · rw [if_neg hn, if_neg (show ¬(n ≤ i + 1 ∧ 1 ≤ n) by omega),
            show (drivenState a b n i).result =
              (if n ≤ i ∧ 1 ≤ n then some (from_binary (sumList a b n)) else none)
              from rfl, if_neg (by omega)]
      · by_cases hn : i + 1 = n
        · rw [if_pos hn, if_pos (show n ≤ i + 1 ∧ 1 ≤ n by omega)]
        · rw [if_neg hn, if_neg (show ¬(n ≤ i + 1 ∧ 1 ≤ n) by omega),
            show (drivenState a b n i).sign =
              (if n ≤ i ∧ 1 ≤ n then some ((sumList a b n).getLastD 0) else none)
              from rfl, if_neg (by omega)]
    rw [hstep]
    have hadd : i + (k + 1) = i + 1 + k := by omega
    rw [hadd]
    exact ih (i + 1) (by omega)


/-! ### Running `add` end to end -/

lemma zip_quads (a b : Int) (n : Nat) :
    (List.map in1W (List.range n)).zip ((List.map in2W (List.range n)).zip
      ((to_binary a n).zip (to_binary b n))) =
    (List.range n).map (fun j => (in1W j, in2W j, ibit a j, ibit b j)) := by
  rw [to_binary_eq_map a n, to_binary_eq_map b n, List.zip_map', List.zip_map',
    List.zip_map']

lemma convState_eq_driven (a b : Int) (n : Nat) : convState n = drivenState a b n 0 := by
  simp only [convState, drivenState]
  rw [if_neg (show ¬(n ≤ 0 ∧ 1 ≤ n) by omega), if_neg (show ¬(n ≤ 0 ∧ 1 ≤ n) by omega)]
  rfl

/-- What `add` computes, in terms of the sum-bit list produced by the
ripple-carry cascade. -/
theorem add_run (a b : Int) (n : Nat) (hn : 1 ≤ n) :
    add a b n = some (if (sumList a b n).getLastD 0 = 1
      then -(2 ^ n - from_binary (sumList a b n))
      else from_binary (sumList a b n)) := by
  unfold add
  rw [build_circuit_eq n]
  dsimp only
  rw [if_pos rfl]
  rw [show (List.range n).map outW = outsList n from rfl, converter_init_eq n]
  rw [zip_quads a b n]
  rw [convState_eq_driven a b n]
  rw [show List.range n = List.range' 0 n from List.range_eq_range' n]
  rw [driveAll_inv a b n n 0 (by omega), Nat.zero_add]
  dsimp only
  rw [show Converter.getSign (drivenState a b n n) =
      (if n ≤ n ∧ 1 ≤ n then some ((sumList a b n).getLastD 0) else none) from rfl,
    if_pos ⟨le_refl n, hn⟩]
  dsimp only
  rw [show Converter.getResult (drivenState a b n n) =
      (if n ≤ n ∧ 1 ≤ n then some (from_binary (sumList a b n)) else none) from rfl,
    if_pos ⟨le_refl n, hn⟩]


/-! ### Ripple-carry arithmetic -/

lemma map_range_getD (f : Nat → Int) {i n : Nat} (h : i < n) :
    ((List.range n).map f).getD i 0 = f i := by
  rw [List.getD_eq_getElem?_getD, List.getElem?_map, List.getElem?_range h]
  rfl

lemma sumBits_nonneg_lt (f : Nat → Int) (hf : ∀ i, f i = 0 ∨ f i = 1) (n : Nat) :
    0 ≤ (∑ i ∈ Finset.range n, f i * 2 ^ i) ∧
      (∑ i ∈ Finset.range n, f i * 2 ^ i) < 2 ^ n := by
  induction n with
  | zero => simp
  | succ n ih =>
    obtain ⟨ih1, ih2⟩ := ih
    have hp : (0 : ℤ) < 2 ^ n := by positivity
    rw [Finset.sum_range_succ, pow_succ]
    rcases hf n with h | h <;> rw [h] <;> constructor <;> omega

/-- The ripple-carry invariant: the low `n` sum bits plus the pending carry
recompose the sum of the operands' low `n` bits. -/
lemma ripple (a b : Int) (n : Nat) :
    (∑ i ∈ Finset.range n, sumBit a b i * 2 ^ i) + carrySeq a b n * 2 ^ n =
      a % 2 ^ n + b % 2 ^ n := by
  induction n with
  | zero => simp [carrySeq]
  | succ n ih =>
    have ea : a % 2 ^ (n + 1) = a % 2 ^ n + ibit a n * 2 ^ n := emod_pow_succ a n
    have eb : b % 2 ^ (n + 1) = b % 2 ^ n + ibit b n * 2 ^ n := emod_pow_succ b n
    rw [Finset.sum_range_succ, ea, eb, pow_succ]
    linear_combination ih + (2 : ℤ) ^ n * fullAdder_identity a b n

/-- The sum bits encode `(a + b) mod 2^n`. -/
lemma sum_sumBit (a b : Int) (n : Nat) :
    (∑ i ∈ Finset.range n, sumBit a b i * 2 ^ i) = (a + b) % 2 ^ n := by
  have hr := ripple a b n
  obtain ⟨hS0, hS1⟩ := sumBits_nonneg_lt (sumBit a b) (sumBit_bit a b) n
  rw [Int.add_emod a b]
  rw [show a % 2 ^ n + b % 2 ^ n =
      (∑ i ∈ Finset.range n, sumBit a b i * 2 ^ i) + 2 ^ n * carrySeq a b n from by
    linarith [hr]]
  rw [Int.add_mul_emod_self_left]
  exact (Int.emod_eq_of_lt hS0 hS1).symm

lemma from_binary_sumList (a b : Int) (n : Nat) :
    from_binary (sumList a b n) = (a + b) % 2 ^ n := by
  have hbits : ∀ x ∈ sumList a b n, x = 0 ∨ x = 1 := by
    intro x hx
    obtain ⟨j, -, rfl⟩ := List.mem_map.mp hx
    exact sumBit_bit a b j
  obtain ⟨hval, -, -⟩ := from_binary_spec _ hbits
  have hlen : (sumList a b n).length = n := by simp [sumList]
  rw [hval, hlen]
  rw [show (∑ i ∈ Finset.range n, (sumList a b n).getD i 0 * 2 ^ i) =
      ∑ i ∈ Finset.range n, sumBit a b i * 2 ^ i from
    Finset.sum_congr rfl fun i hi => by
      rw [show (sumList a b n).getD i 0 = sumBit a b i from
        map_range_getD _ (Finset.mem_range.mp hi)]]
  exact sum_sumBit a b n

lemma getLastD_sumList (a b : Int) (n : Nat) (hn : 1 ≤ n) :
    (sumList a b n).getLastD 0 = sumBit a b (n - 1) := by
  obtain ⟨m, rfl⟩ : ∃ m, n = m + 1 := ⟨n - 1, by omega⟩
  simp only [sumList, List.range_succ, List.map_append, List.map_cons, List.map_nil]
  rw [List.getLastD_concat]
  rfl

/-- The most significant sum bit is 1 exactly when the wrapped sum lies in
the upper half of the unsigned range. -/
lemma topBit_iff (a b : Int) (n : Nat) (hn : 1 ≤ n) :
    sumBit a b (n - 1) = 1 ↔ 2 ^ (n - 1) ≤ (a + b) % 2 ^ n := by
  obtain ⟨m, rfl⟩ : ∃ m, n = m + 1 := ⟨n - 1, by omega⟩
  rw [show m + 1 - 1 = m from rfl]
  rw [← sum_sumBit a b (m + 1), Finset.sum_range_succ]
  obtain ⟨hS0, hS1⟩ := sumBits_nonneg_lt (sumBit a b) (sumBit_bit a b) m
  rcases sumBit_bit a b m with h | h <;> rw [h] <;> omega


/-! ### Claim C1: `add` computes two's-complement addition with wraparound -/

/-- C1.  For all integers `a`, `b` and every `num_bits ≥ 1`, `add` returns
(without raising) the unique integer `r` congruent to `a + b` modulo
`2^num_bits` lying in `[-2^(num_bits-1), 2^(num_bits-1) - 1]`; equivalently,
with `s = (a+b) mod 2^num_bits ∈ [0, 2^num_bits)`, it returns `s` when
`s < 2^(num_bits-1)` and `s - 2^num_bits` otherwise. -/
theorem add_two_complement (a b : Int) (num_bits : Nat) (h : 1 ≤ num_bits) :
    ∃ r, add a b num_bits = some r ∧
      (2 ^ num_bits : Int) ∣ (a + b - r) ∧
      -(2 ^ (num_bits - 1)) ≤ r ∧ r ≤ 2 ^ (num_bits - 1) - 1 ∧
      (∀ rr : Int, (2 ^ num_bits : Int) ∣ (a + b - rr) → -(2 ^ (num_bits - 1)) ≤ rr →
        rr ≤ 2 ^ (num_bits - 1) - 1 → rr = r) ∧
      r = (if (a + b) % 2 ^ num_bits < 2 ^ (num_bits - 1) then (a + b) % 2 ^ num_bits
           else (a + b) % 2 ^ num_bits - 2 ^ num_bits) := by
  have hp : (0 : ℤ) < 2 ^ num_bits := by positivity
  have hp1 : (0 : ℤ) < 2 ^ (num_bits - 1) := by positivity
  have h2 : (2 : ℤ) ^ num_bits = 2 ^ (num_bits - 1) * 2 := by
    obtain ⟨m, rfl⟩ : ∃ m, num_bits = m + 1 := ⟨num_bits - 1, by omega⟩
    rw [pow_succ]
    rfl
  have h0s : 0 ≤ (a + b) % 2 ^ num_bits := Int.emod_nonneg _ (by positivity)
  have h1s : (a + b) % 2 ^ num_bits < 2 ^ num_bits := Int.emod_lt_of_pos _ hp
  have hdvd_s : (2 ^ num_bits : ℤ) ∣ (a + b - (a + b) % 2 ^ num_bits) := by
    refine ⟨(a + b) / 2 ^ num_bits, ?_⟩
    have := Int.ediv_add_emod (a + b) (2 ^ num_bits)
    linarith
  refine ⟨if (a + b) % 2 ^ num_bits < 2 ^ (num_bits - 1) then (a + b) % 2 ^ num_bits
    else (a + b) % 2 ^ num_bits - 2 ^ num_bits, ?_, ?_, ?_, ?_, ?_, rfl⟩
  · rw [add_run a b num_bits h, getLastD_sumList a b num_bits h,
      from_binary_sumList a b num_bits]
    congr 1
    rcases sumBit_bit a b (num_bits - 1) with h' | h'
    · have hlt : (a + b) % 2 ^ num_bits < 2 ^ (num_bits - 1) := by
        by_contra hc
        push_neg at hc
        have h1 := (topBit_iff a b num_bits h).mpr hc
        omega
      rw [h', if_neg (by norm_num), if_pos hlt]
    · have hge := (topBit_iff a b num_bits h).mp h'
      rw [h', if_pos rfl, if_neg (by omega)]
      ring
  · split_ifs with hc
    · exact hdvd_s
    · have he : a + b - ((a + b) % 2 ^ num_bits - 2 ^ num_bits) =
          (a + b - (a + b) % 2 ^ num_bits) + 2 ^ num_bits := by ring
      rw [he]
      exact dvd_add hdvd_s ⟨1, by ring⟩
  · split_ifs with hc <;> omega
  · split_ifs with hc <;> omega
  · intro rr hdvd hlb hub
    split_ifs with hc
    · have hd2 : (2 ^ num_bits : ℤ) ∣ (rr - (a + b) % 2 ^ num_bits) := by
        have hd3 := dvd_sub hdvd_s hdvd
        rw [show (a + b - (a + b) % 2 ^ num_bits) - (a + b - rr) =
          rr - (a + b) % 2 ^ num_bits from by ring] at hd3
        exact hd3
      have hz := Int.eq_zero_of_abs_lt_dvd hd2 (by rw [abs_lt]; constructor <;> omega)
      omega
    · have hd2 : (2 ^ num_bits : ℤ) ∣ (rr - ((a + b) % 2 ^ num_bits - 2 ^ num_bits)) := by
        have hd3 := dvd_sub hdvd_s hdvd
        rw [show (a + b - (a + b) % 2 ^ num_bits) - (a + b - rr) =
          rr - (a + b) % 2 ^ num_bits from by ring] at hd3
        have hd4 := dvd_add hd3 (⟨1, by ring⟩ : (2 ^ num_bits : ℤ) ∣ 2 ^ num_bits * 1)
        rw [show rr - (a + b) % 2 ^ num_bits + 2 ^ num_bits * 1 =
          rr - ((a + b) % 2 ^ num_bits - 2 ^ num_bits) from by ring] at hd4
        exact hd4
      have hz := Int.eq_zero_of_abs_lt_dvd hd2 (by rw [abs_lt]; constructor <;> omega)
      omega

/-- Witness for C1 at `a = 1`, `b = 1`, `num_bits = 2` (the doctest
`add(1, 1, 2) = -2`). -/
theorem add_two_complement_witness :
    1 ≤ 2 ∧
    ∃ r, add 1 1 2 = some r ∧
      (2 ^ 2 : Int) ∣ (1 + 1 - r) ∧
      -(2 ^ (2 - 1)) ≤ r ∧ r ≤ 2 ^ (2 - 1) - 1 ∧
      (∀ rr : Int, (2 ^ 2 : Int) ∣ (1 + 1 - rr) → -(2 ^ (2 - 1)) ≤ rr →
        rr ≤ 2 ^ (2 - 1) - 1 → rr = r) ∧
      r = (if (1 + 1) % 2 ^ 2 < 2 ^ (2 - 1) then (1 + 1) % 2 ^ 2
           else (1 + 1) % 2 ^ 2 - 2 ^ 2) :=
  ⟨by norm_num, add_two_complement 1 1 2 (by norm_num)⟩

/-! ### Claim C9: `add` is commutative -/

/-- C9.  `add a b num_bits = add b a num_bits` for every `num_bits ≥ 1`. -/
theorem add_commutative (a b : Int) (num_bits : Nat) (h : 1 ≤ num_bits) :
    add a b num_bits = add b a num_bits := by
  obtain ⟨r1, he1, -, -, -, -, hf1⟩ := add_two_complement a b num_bits h
  obtain ⟨r2, he2, -, -, -, -, hf2⟩ := add_two_complement b a num_bits h
  rw [he1, he2, hf1, hf2, add_comm b a]

/-- Witness for C9 at `a = 3`, `b = 5`, `num_bits = 8`. -/
theorem add_commutative_witness : 1 ≤ 8 ∧ add 3 5 8 = add 5 3 8 :=
  ⟨by norm_num, add_commutative 3 5 8 (by norm_num)⟩

/-! ### Claim C10: zero is an identity on in-range values -/

/-- C10.  For `num_bits ≥ 1` and `-2^(num_bits-1) ≤ a ≤ 2^(num_bits-1) - 1`,
`add a 0 num_bits = a`. -/
theorem add_zero_identity (a : Int) (num_bits : Nat) (h : 1 ≤ num_bits)
    (hlo : -(2 ^ (num_bits - 1)) ≤ a) (hhi : a ≤ 2 ^ (num_bits - 1) - 1) :
    add a 0 num_bits = some a := by
  obtain ⟨r, he, -, -, -, huniq, -⟩ := add_two_complement a 0 num_bits h
  rw [he, huniq a ⟨0, by ring⟩ hlo hhi]

/-- Witness for C10 at `a = -3`, `num_bits = 3`. -/
theorem add_zero_identity_witness :
    1 ≤ 3 ∧ -(2 ^ (3 - 1) : Int) ≤ -3 ∧ (-3 : Int) ≤ 2 ^ (3 - 1) - 1 ∧
      add (-3) 0 3 = some (-3) :=
  ⟨by norm_num, by norm_num, by norm_num,
    add_zero_identity (-3) 3 (by norm_num) (by norm_num) (by norm_num)⟩


/-! ### Claim C5: driving all inputs completes the circuit -/

/-- C5.  After `add`'s input-driving loop has set all `2·num_bits` input
wires of the circuit returned by `build_circuit num_bits` (with the
converter attached), every output wire is set and the converter's `result`
and `sign` can be read without error, with no further external action. -/
theorem completion_after_driving (a b : Int) (num_bits : Nat) (h : 1 ≤ num_bits) :
    ∃ st : CState,
      driveAll cascadeFuel
          (Converter.init (build_circuit num_bits).1.2.2.2 (build_circuit num_bits).1.1)
          ((build_circuit num_bits).1.2.1.zip ((build_circuit num_bits).1.2.2.1.zip
            ((to_binary a num_bits).zip (to_binary b num_bits)))) = (st, true) ∧
      (∀ w ∈ (build_circuit num_bits).1.2.2.2, (Wire.getValue st w).isSome = true) ∧
      (Converter.getResult st).isSome = true ∧
      (Converter.getSign st).isSome = true := by
  refine ⟨drivenState a b num_bits num_bits, ?_, ?_, ?_, ?_⟩
  · rw [build_circuit_eq num_bits]
    dsimp only
    rw [show (List.range num_bits).map outW = outsList num_bits from rfl,
      converter_init_eq num_bits, zip_quads a b num_bits,
      convState_eq_driven a b num_bits,
      show List.range num_bits = List.range' 0 num_bits from List.range_eq_range' num_bits,
      driveAll_inv a b num_bits num_bits 0 (by omega), Nat.zero_add]
  · intro w hw
    rw [build_circuit_eq num_bits] at hw
    dsimp only at hw
    obtain ⟨j, hj, rfl⟩ := List.mem_map.mp hw
    show (drivenValues a b num_bits (outW j)).isSome = true
    rw [dv_out, if_pos (List.mem_range.mp hj)]
    rfl
  · show (if num_bits ≤ num_bits ∧ 1 ≤ num_bits then
        some (from_binary (sumList a b num_bits)) else none).isSome = true
    rw [if_pos ⟨le_refl _, h⟩]
    rfl
  · show (if num_bits ≤ num_bits ∧ 1 ≤ num_bits then
        some ((sumList a b num_bits).getLastD 0) else none).isSome = true
    rw [if_pos ⟨le_refl _, h⟩]
    rfl

/-- Witness for C5 at `a = 0`, `b = 0`, `num_bits = 1`. -/
theorem completion_after_driving_witness :
    1 ≤ 1 ∧
    ∃ st : CState,
      driveAll cascadeFuel
          (Converter.init (build_circuit 1).1.2.2.2 (build_circuit 1).1.1)
          ((build_circuit 1).1.2.1.zip ((build_circuit 1).1.2.2.1.zip
            ((to_binary 0 1).zip (to_binary 0 1)))) = (st, true) ∧
      (∀ w ∈ (build_circuit 1).1.2.2.2, (Wire.getValue st w).isSome = true) ∧
      (Converter.getResult st).isSome = true ∧
      (Converter.getSign st).isSome = true :=
  ⟨le_refl 1, completion_after_driving 0 0 1 (le_refl 1)⟩

/-! ### Claim C8: reads fail before settling and succeed afterwards -/

/-- C8.  Reading an output wire's `value` before it has been set fails
(`none`, the embedded `AttributeError`), as does reading the converter's
`result` or `sign` before every observed output wire is set; after the
driving loop has settled the circuit, the same reads succeed and return the
recorded values. -/
theorem reads_fail_until_set (a b : Int) (num_bits : Nat) (h : 1 ≤ num_bits) :
    (∀ w ∈ (build_circuit num_bits).1.2.2.2,
      Wire.getValue (Converter.init (build_circuit num_bits).1.2.2.2 (build_circuit num_bits).1.1) w = none) ∧
    Converter.getResult (Converter.init (build_circuit num_bits).1.2.2.2 (build_circuit num_bits).1.1) = none ∧
    Converter.getSign (Converter.init (build_circuit num_bits).1.2.2.2 (build_circuit num_bits).1.1) = none ∧
    ∃ st : CState,
      driveAll cascadeFuel
          (Converter.init (build_circuit num_bits).1.2.2.2 (build_circuit num_bits).1.1)
          ((build_circuit num_bits).1.2.1.zip ((build_circuit num_bits).1.2.2.1.zip
            ((to_binary a num_bits).zip (to_binary b num_bits)))) = (st, true) ∧
      (∀ j, j < num_bits → Wire.getValue st (outW j) = some (sumBit a b j)) ∧
      Converter.getResult st = some (from_binary (sumList a b num_bits)) ∧
      Converter.getSign st = some ((sumList a b num_bits).getLastD 0) := by
  refine ⟨?_, ?_, ?_, drivenState a b num_bits num_bits, ?_, ?_, ?_, ?_⟩
  · intro w hw
    rw [build_circuit_eq num_bits] at hw
    dsimp only at hw
    obtain ⟨j, hj, rfl⟩ := List.mem_map.mp hw
    rw [build_circuit_eq num_bits]
    dsimp only
    rw [show (List.range num_bits).map outW = outsList num_bits from rfl,
      converter_init_eq num_bits]
    show builtValues (outW j) = none
    rw [builtValues,
      Function.update_noteq (show outW j ≠ 0 by simp only [outW]; omega)]
  · rw [build_circuit_eq num_bits]
    dsimp only
    rw [show (List.range num_bits).map outW = outsList num_bits from rfl,
      converter_init_eq num_bits]
    rfl
  · rw [build_circuit_eq num_bits]
    dsimp only
    rw [show (List.range num_bits).map outW = outsList num_bits from rfl,
      converter_init_eq num_bits]
    rfl
  · rw [build_circuit_eq num_bits]
    dsimp only
    rw [show (List.range num_bits).map outW = outsList num_bits from rfl,
      converter_init_eq num_bits, zip_quads a b num_bits,
      convState_eq_driven a b num_bits,
      show List.range num_bits = List.range' 0 num_bits from List.range_eq_range' num_bits,
      driveAll_inv a b num_bits num_bits 0 (by omega), Nat.zero_add]
  · intro j hj
    show drivenValues a b num_bits (outW j) = some (sumBit a b j)
    rw [dv_out, if_pos hj]
  · show (if num_bits ≤ num_bits ∧ 1 ≤ num_bits then
        some (from_binary (sumList a b num_bits)) else none) = _
    rw [if_pos ⟨le_refl _, h⟩]
  · show (if num_bits ≤ num_bits ∧ 1 ≤ num_bits then
        some ((sumList a b num_bits).getLastD 0) else none) = _
    rw [if_pos ⟨le_refl _, h⟩]

/-- Witness for C8 at `a = 2`, `b = 1`, `num_bits = 2`. -/
theorem reads_fail_until_set_witness :
    1 ≤ 2 ∧
    ((∀ w ∈ (build_circuit 2).1.2.2.2,
      Wire.getValue (Converter.init (build_circuit 2).1.2.2.2 (build_circuit 2).1.1) w = none) ∧
    Converter.getResult (Converter.init (build_circuit 2).1.2.2.2 (build_circuit 2).1.1) = none ∧
    Converter.getSign (Converter.init (build_circuit 2).1.2.2.2 (build_circuit 2).1.1) = none ∧
    ∃ st : CState,
      driveAll cascadeFuel
          (Converter.init (build_circuit 2).1.2.2.2 (build_circuit 2).1.1)
          ((build_circuit 2).1.2.1.zip ((build_circuit 2).1.2.2.1.zip
            ((to_binary 2 2).zip (to_binary 1 2)))) = (st, true) ∧
      (∀ j, j < 2 → Wire.getValue st (outW j) = some (sumBit 2 1 j)) ∧
      Converter.getResult st = some (from_binary (sumList 2 1 2)) ∧
      Converter.getSign st = some ((sumList 2 1 2).getLastD 0)) :=
  ⟨by norm_num, reads_fail_until_set 2 1 2 (by norm_num)⟩


/-! ### Claim C4: the full adder -/

lemma land_tbl00 : Int.land 0 0 = 0 := rfl

lemma land_tbl01 : Int.land 0 1 = 0 := rfl

lemma land_tbl10 : Int.land 1 0 = 0 := rfl

lemma land_tbl11 : Int.land 1 1 = 1 := rfl

lemma lor_tbl00 : Int.lor 0 0 = 0 := rfl

lemma lor_tbl01 : Int.lor 0 1 = 1 := rfl

lemma lor_tbl10 : Int.lor 1 0 = 1 := rfl

lemma lor_tbl11 : Int.lor 1 1 = 1 := rfl

lemma xor_tbl00 : Int.xor 0 0 = 0 := rfl

lemma xor_tbl01 : Int.xor 0 1 = 1 := rfl

lemma xor_tbl10 : Int.xor 1 0 = 1 := rfl

lemma xor_tbl11 : Int.xor 1 1 = 0 := rfl

/-- Two-element permutation enumeration. -/
lemma perm_pair {α : Type} (u v : α) (ps : List α) (h : ps.Perm [u, v]) :
    ps = [u, v] ∨ ps = [v, u] := by
  rcases ps with _ | ⟨a, _ | ⟨b, _ | ⟨c, t⟩⟩⟩
  · have hl := h.length_eq
    simp at hl
  · have hl := h.length_eq
    simp at hl
  · have ha : a ∈ [u, v] := h.subset (by simp)
    rcases (by simpa using ha : a = u ∨ a = v) with ha' | ha'
    · rw [ha'] at h ⊢
      have hb : b = v := by simpa using List.perm_singleton.mp h.cons_inv
      left
      rw [hb]
    · rw [ha'] at h ⊢
      have hs : ([u, v] : List α).Perm [v, u] := List.Perm.swap v u []
      have hb : b = u := by simpa using List.perm_singleton.mp (h.trans hs).cons_inv
      right
      rw [hb]
  · have hl := h.length_eq
    simp at hl

/-- Three-element permutation enumeration. -/
lemma perm_three {α : Type} (u v w : α) (ps : List α) (h : ps.Perm [u, v, w]) :
    ps = [u, v, w] ∨ ps = [u, w, v] ∨ ps = [v, u, w] ∨
    ps = [v, w, u] ∨ ps = [w, u, v] ∨ ps = [w, v, u] := by
  rcases ps with _ | ⟨a, t⟩
  · have hl := h.length_eq
    simp at hl
  · have ha : a ∈ [u, v, w] := h.subset (by simp)
    rcases (by simpa using ha : a = u ∨ a = v ∨ a = w) with ha' | ha' | ha'
    · rw [ha'] at h ⊢
      have ht : t.Perm [v, w] := h.cons_inv
      rcases perm_pair v w t ht with rfl | rfl
      · exact Or.inl rfl
      · exact Or.inr (Or.inl rfl)
    · rw [ha'] at h ⊢
      have hs : ([u, v, w] : List α).Perm (v :: [u, w]) := List.Perm.swap v u [w]
      have ht : t.Perm [u, w] := (h.trans hs).cons_inv
      rcases perm_pair u w t ht with rfl | rfl
      · exact Or.inr (Or.inr (Or.inl rfl))
      · exact Or.inr (Or.inr (Or.inr (Or.inl rfl)))
    · rw [ha'] at h ⊢
      have hs1 : ([u, v, w] : List α).Perm [u, w, v] :=
        List.Perm.cons u (List.Perm.swap w v [])
      have hs2 : ([u, w, v] : List α).Perm (w :: [u, v]) := List.Perm.swap w u [v]
      have ht : t.Perm [u, v] := (h.trans (hs1.trans hs2)).cons_inv
      rcases perm_pair u v t ht with rfl | rfl
      · exact Or.inr (Or.inr (Or.inr (Or.inr (Or.inl rfl))))
      · exact Or.inr (Or.inr (Or.inr (Or.inr (Or.inr rfl))))

/-- The test harness of the claim: five fresh wires, then a `FullAdder`
wired over them, exactly as the class doctest does. -/
def fullAdderCircuit : CState × (Nat × Nat × Nat × Nat × Nat) :=
  let (in1, st) := newWire initState
  let (in2, st) := newWire st
  let (carry_in, st) := newWire st
  let (out, st) := newWire st
  let (carry_out, st) := newWire st
  (FullAdder.init in1 in2 carry_in out carry_out st, (in1, in2, carry_in, out, carry_out))

/-- An external driver setting a list of wires in order, aborting on error. -/
def setMany : Nat → CState → List (Nat × Int) → CState × Bool
  | _, st, [] => (st, true)
  | fuel, st, (w, v) :: rest =>
    match setWire fuel st w v with
    | (st, false) => (st, false)
    | (st, true) => setMany fuel st rest


set_option maxHeartbeats 4000000 in
/-- **C4**: constructing a `FullAdder` on five fresh wires and then setting
the two inputs and the carry-in to bits in any order leaves both the output
and the carry-out wires set, with `sum + 2 * carry_out = in1 + in2 + carry_in`. -/
theorem fullAdder_any_order (x y c : Int)
    (hx : x = 0 ∨ x = 1) (hy : y = 0 ∨ y = 1) (hc : c = 0 ∨ c = 1)
    (ps : List (Nat × Int))
    (hperm : ps.Perm [(fullAdderCircuit.2.1, x), (fullAdderCircuit.2.2.1, y),
      (fullAdderCircuit.2.2.2.1, c)]) :
    ∃ s co,
      (setMany cascadeFuel fullAdderCircuit.1 ps).2 = true ∧
      Wire.getValue (setMany cascadeFuel fullAdderCircuit.1 ps).1
        fullAdderCircuit.2.2.2.2.1 = some s ∧
      Wire.getValue (setMany cascadeFuel fullAdderCircuit.1 ps).1
        fullAdderCircuit.2.2.2.2.2 = some co ∧
      s + 2 * co = x + y + c := by
  rcases perm_three _ _ _ ps hperm with rfl | rfl | rfl | rfl | rfl | rfl <;>
    refine ⟨Int.xor c (Int.xor x y),
      Int.lor (Int.land c (Int.xor x y)) (Int.land x y), ?_, ?_, ?_, ?_⟩ <;>
    rcases hx with rfl | rfl <;> rcases hy with rfl | rfl <;> rcases hc with rfl | rfl <;>
    simp [setMany, setWire, notifyList, updateObs, cascadeFuel, fullAdderCircuit, FullAdder.init, HalfAdder.init, newWire, initState, addObserver, Wire.getValue, GateOp.operation, Function.update_apply, land_tbl00, land_tbl01, land_tbl10, land_tbl11, lor_tbl00, lor_tbl01, lor_tbl10, lor_tbl11, xor_tbl00, xor_tbl01, xor_tbl10, xor_tbl11]

/-- Witness for C4 at `x = y = c = 1` with the inputs driven in the order
carry-in, in1, in2. -/
theorem fullAdder_any_order_witness :
    (((1 : Int) = 0 ∨ (1 : Int) = 1) ∧
      ([(fullAdderCircuit.2.2.2.1, 1), (fullAdderCircuit.2.1, 1),
        (fullAdderCircuit.2.2.1, 1)] : List (Nat × Int)).Perm
        [(fullAdderCircuit.2.1, 1), (fullAdderCircuit.2.2.1, 1),
          (fullAdderCircuit.2.2.2.1, 1)]) ∧
    ∃ s co,
      (setMany cascadeFuel fullAdderCircuit.1
        [(fullAdderCircuit.2.2.2.1, 1), (fullAdderCircuit.2.1, 1),
          (fullAdderCircuit.2.2.1, 1)]).2 = true ∧
      Wire.getValue (setMany cascadeFuel fullAdderCircuit.1
        [(fullAdderCircuit.2.2.2.1, 1), (fullAdderCircuit.2.1, 1),
          (fullAdderCircuit.2.2.1, 1)]).1 fullAdderCircuit.2.2.2.2.1 = some s ∧
      Wire.getValue (setMany cascadeFuel fullAdderCircuit.1
        [(fullAdderCircuit.2.2.2.1, 1), (fullAdderCircuit.2.1, 1),
          (fullAdderCircuit.2.2.1, 1)]).1 fullAdderCircuit.2.2.2.2.2 = some co ∧
      s + 2 * co = 1 + 1 + 1 :=
  ⟨⟨Or.inr rfl, by decide⟩,
    fullAdder_any_order 1 1 1 (Or.inr rfl) (Or.inr rfl) (Or.inr rfl)
      [(fullAdderCircuit.2.2.2.1, 1), (fullAdderCircuit.2.1, 1),
        (fullAdderCircuit.2.2.1, 1)] (by decide)⟩


/-! ### Claims C6 and C7: the behaviour of `Wire.set` -/

/-- **C7**: `Wire.set(value)` fails exactly when `value ∉ \x7b0, 1\x7d`: on such a
value the assertion fires, the object state is unchanged (the wire stays
unset) and no observer is notified; on a value in `\x7b0, 1\x7d` the call
records the value on the wire and then notifies the wire's observers in
order. -/
theorem set_validates (fuel : Nat) (st : CState) (w : Nat) (v : Int) :
    setWire (fuel + 1) st w v =
      (if v = 0 ∨ v = 1 then
        notifyList fuel { st with values := Function.update st.values w (some v) }
          (st.obs w)
      else (st, false)) ∧
    Function.update st.values w (some v) w = some v := by
  constructor
  · by_cases h : v = 0 ∨ v = 1
    · rw [if_pos h, setWire_ok fuel st w v h]
    · rw [if_neg h, setWire_bad fuel st w v h]
  · simp

/-- **C6**, amended: the code raises no `AlreadySetViolation`.  Calling `set`
a second time on a wire that already holds a value, with a new value in
`\x7b0, 1\x7d`, proceeds exactly as if the wire had never been set: the stored
value is overwritten and the observers are notified again; in particular on
a wire with no observers the second call returns successfully with the new
value stored. -/
theorem set_second_time_overwrites (fuel : Nat) (st : CState) (w : Nat) (v v' : Int)
    (hset : st.values w = some v) (hv' : v' = 0 ∨ v' = 1) :
    setWire (fuel + 1) st w v' =
      setWire (fuel + 1) { st with values := Function.update st.values w none } w v' ∧
    (st.obs w = [] →
      setWire (fuel + 1) st w v' =
        ({ st with values := Function.update st.values w (some v') }, true)) := by
  constructor
  · rw [setWire_ok fuel st w v' hv', setWire_ok fuel _ w v' hv']
    dsimp only
    rw [Function.update_idem]
  · intro hobs
    rw [setWire_ok fuel st w v' hv']
    rw [hobs]
    exact notifyList_nil fuel _

/-- Witness for the amended C6 on a one-wire state already holding `0`,
setting it again to `1`. -/
theorem set_second_time_overwrites_witness :
    (({ nWires := 1, values := Function.update (fun _ => none) 0 (some 0), obs := fun _ => [], result := none, sign := none } : CState).values 0 = some 0 ∧
      ((1 : Int) = 0 ∨ (1 : Int) = 1)) ∧
    (setWire (8 + 1) { nWires := 1, values := Function.update (fun _ => none) 0 (some 0), obs := fun _ => [], result := none, sign := none } 0 1 =
        setWire (8 + 1) { nWires := 1, values := Function.update (Function.update (fun _ => none) 0 (some 0)) 0 none, obs := fun _ => [], result := none, sign := none } 0 1 ∧
      (({ nWires := 1, values := Function.update (fun _ => none) 0 (some 0), obs := fun _ => [], result := none, sign := none } : CState).obs 0 = [] →
        setWire (8 + 1) { nWires := 1, values := Function.update (fun _ => none) 0 (some 0), obs := fun _ => [], result := none, sign := none } 0 1 =
          ({ nWires := 1, values := Function.update (Function.update (fun _ => none) 0 (some 0)) 0 (some 1), obs := fun _ => [], result := none, sign := none }, true))) :=
  ⟨⟨by simp, Or.inr rfl⟩,
    set_second_time_overwrites 8
      { nWires := 1, values := Function.update (fun _ => none) 0 (some 0), obs := fun _ => [], result := none, sign := none }
      0 0 1 (by simp) (Or.inr rfl)⟩

/-- Counterexample to C6 as stated: a freshly allocated wire is set to `0`
and then set again to `1`; the second call does not fail — it returns
successfully and the wire now reads `1`.  No `AlreadySetViolation` exists in
the code (`Wire.set` only asserts the value is a bit). -/
theorem set_twice_no_violation :
    (setWire cascadeFuel (setWire cascadeFuel (newWire initState).2 0 0).1 0 1).2 = true ∧
    Wire.getValue (setWire cascadeFuel (setWire cascadeFuel (newWire initState).2 0 0).1 0 1).1 0 = some 1 := by
  constructor <;>
    simp [setWire, notifyList, cascadeFuel, newWire, initState, Wire.getValue,
      Function.update_apply]

end LogicAdd
